import Mathlib

/-!
Verification of `videos.py`, a Hash Code 2017 video-caching pipeline:
`lire_instance` (parsing), `build_model` (MIP construction over gurobipy),
`resol_restit` (solve, solution extraction, output writing) and `main`.

The Python code is shallowly embedded: an input file is a list of
tokenized lines (`List (List Int)`: the claims under study only concern
field counts and integer values, so tokens are integers and a line read
past EOF is the empty list, matching `readline` returning the empty
string).  Python exceptions become `Except PyErr`; Python `dict`s become
insertion-ordered association lists; the gurobipy model becomes an
explicit record of created variables and constraints; solver resources
and file writes become an explicit event trace.
-/

/-- Python exceptions that `videos.py` can raise: `ValueError` (with its
message), `IndexError` from list indexing, `KeyError` from dict lookup. -/
inductive PyErr where
  | valueError (msg : String)
  | indexError
  | keyError
deriving Repr, DecidableEq

/-- `f.readline().split()` on a tokenized input: returns the next line and
the remaining input; at EOF it returns the empty line (Python returns ""). -/
def readline : List (List Int) → List Int × List (List Int)
  | [] => ([], [])
  | l :: ls => (l, ls)

/-- Python `dict` insertion `d[k] = v` on an insertion-ordered association
list: an existing key keeps its position and gets the new value, a new key
is appended. -/
def dictInsert (d : List (Int × Int)) (k v : Int) : List (Int × Int) :=
  if d.any (fun p => p.1 == k) then
    d.map (fun p => if p.1 == k then (k, v) else p)
  else
    d ++ [(k, v)]

/-- An endpoint as parsed: `{"ld": ..., "caches": {cache_id: latency}}`. -/
structure Endpoint where
  ld : Int
  caches : List (Int × Int)
deriving Repr, DecidableEq

/-- A request as parsed: `{"id": r, "video": v, "endpoint": e, "count": n}`. -/
structure Request where
  id : Int
  video : Int
  endpoint : Int
  count : Int
deriving Repr, DecidableEq

/-- The tuple returned by `lire_instance`. -/
structure Instance where
  V : Int
  E : Int
  R : Int
  C : Int
  X : Int
  video_sizes : List Int
  endpoints : List Endpoint
  requests : List Request
deriving Repr, DecidableEq

/-- The `k` cache-connection lines of one endpoint block:
`c_id, latency = map(int, f.readline().split())` unpacks exactly two
fields (any other count is a `ValueError`) and stores into the dict. -/
def parseCaches : Nat → List (Int × Int) → List (List Int) →
    Except PyErr (List (Int × Int) × List (List Int))
  | 0, acc, input => .ok (acc, input)
  | k + 1, acc, input =>
    let (line, rest) := readline input
    match line with
    | [c_id, latency] => parseCaches k (dictInsert acc c_id latency) rest
    | _ => .error (.valueError "unpack")

/-- The `E` endpoint blocks: a two-field header `ld k`, then `k`
cache-connection lines (`range(k)` iterates `k.toNat` times). -/
def parseEndpoints : Nat → List (List Int) →
    Except PyErr (List Endpoint × List (List Int))
  | 0, input => .ok ([], input)
  | e + 1, input =>
    let (ep_header, rest) := readline input
    match ep_header with
    | [ld, k] =>
      match parseCaches k.toNat [] rest with
      | .error err => .error err
      | .ok (conns, rest2) =>
        match parseEndpoints e rest2 with
        | .error err => .error err
        | .ok (eps, rest3) => .ok (⟨ld, conns⟩ :: eps, rest3)
    | _ => .error (.valueError "Endpoint header must contain 2 integers")

/-- The `R` request lines, each exactly three fields, ids assigned in
input order starting from `i`. -/
def parseRequests : Nat → Int → List (List Int) →
    Except PyErr (List Request × List (List Int))
  | 0, _, input => .ok ([], input)
  | r + 1, i, input =>
    let (line, rest) := readline input
    match line with
    | [rv, re, rn] =>
      match parseRequests r (i + 1) rest with
      | .error err => .error err
      | .ok (reqs, rest2) => .ok (⟨i, rv, re, rn⟩ :: reqs, rest2)
    | _ => .error (.valueError "Request line must contain 3 integers")

/-- `lire_instance`: header of exactly 5 integers (empty file is its own
error), a size line of exactly `V` integers, `E` endpoint blocks, `R`
request lines.  Trailing input is ignored, exactly as in the source. -/
def lire_instance (input : List (List Int)) : Except PyErr Instance :=
  let (header, rest) := readline input
  match header with
  | [] => .error (.valueError "Empty input file")
  | [v, e, r, c, x] =>
    let (sizes_line, rest1) := readline rest
    if (sizes_line.length : Int) = v then
      match parseEndpoints e.toNat rest1 with
      | .error err => .error err
      | .ok (endpoints, rest2) =>
        match parseRequests r.toNat 0 rest2 with
        | .error err => .error err
        | .ok (requests, _) =>
          .ok ⟨v, e, r, c, x, sizes_line, endpoints, requests⟩
    else .error (.valueError "Second line must contain V video sizes")
  | _ => .error (.valueError "First line must contain 5 integers: V E R C X")

example :
    lire_instance [[1, 1, 1, 1, 10], [5], [100, 1], [0, 10], [0, 0, 3]] =
      .ok ⟨1, 1, 1, 1, 10, [5], [⟨100, [(0, 10)]⟩], [⟨0, 0, 0, 3⟩]⟩ := rfl

example :
    lire_instance [[1, 1, 1, 1, 10], [5, 7]] =
      .error (.valueError "Second line must contain V video sizes") := rfl

/-- Python list indexing `l[i]`: a negative index counts from the end
(`l[-1]` is the last element); out of range raises `IndexError`. -/
def pyListGet {α : Type} (l : List α) (i : Int) : Except PyErr α :=
  let j : Int := if i < 0 then (l.length : Int) + i else i
  if h : 0 ≤ j ∧ j.toNat < l.length then .ok (l.get ⟨j.toNat, h.2⟩)
  else .error .indexError

/-- One capacity accumulator term: a placement-variable key `(v, c)`
together with its coefficient `video_sizes[v]`. -/
abbrev CapTerm := (Int × Int) × Int

/-- Mutable state of `build_model`'s request loop: the shared dict `x` of
placement-variable keys in creation order, the per-cache capacity
accumulators (`{c: gp.LinExpr() for c in range(C)}` as an ordered
association list), the serving variables `(request id, cache id,
objective coefficient)` in creation order, the linking constraints
`y[r,c] <= x[v,c]` and the assignment constraints `(request id, its
serving-variable keys)` meaning their sum is `<= 1`. -/
structure BState where
  x : List (Int × Int)
  capacity : List (Int × List CapTerm)
  servingVars : List (Int × Int × Int)
  linkConstrs : List ((Int × Int) × (Int × Int))
  assignConstrs : List (Int × List (Int × Int))
deriving Repr, DecidableEq

/-- Python dict lookup `capacity[cid]`: `KeyError` when absent. -/
def capLookup (cap : List (Int × List CapTerm)) (c : Int) :
    Except PyErr (List CapTerm) :=
  match cap.find? (fun p => p.1 == c) with
  | some p => .ok p.2
  | none => .error .keyError

/-- Replace cache `c`'s accumulator (in-place `LinExpr.add`). -/
def capStore (cap : List (Int × List CapTerm)) (c : Int)
    (e : List CapTerm) : List (Int × List CapTerm) :=
  cap.map (fun p => if p.1 == c then (c, e) else p)

/-- `if (vid, cid) not in x: x[vid,cid] = model.addVar(...);
capacity[cid].add(x[vid,cid], video_sizes[vid])` — lazily create the
shared placement variable and, only at creation, append its capacity
term.  `capacity[cid]` can raise `KeyError`, `video_sizes[vid]` can
raise `IndexError`. -/
def createX (vid cid : Int) (video_sizes : List Int) (st : BState) :
    Except PyErr BState :=
  if (vid, cid) ∈ st.x then .ok st
  else
    match capLookup st.capacity cid with
    | .error e => .error e
    | .ok entry =>
      match pyListGet video_sizes vid with
      | .error e => .error e
      | .ok sz =>
        .ok { st with
          x := st.x ++ [(vid, cid)],
          capacity := capStore st.capacity cid (entry ++ [((vid, cid), sz)]) }

/-- The inner loop of `build_model` over `endpoints[eid]["caches"].items()`
for one request: skip a cache whose latency is not strictly better than
the data center (`if lc >= ld: continue`); otherwise create the shared
placement variable if needed, create a fresh serving variable with
objective coefficient `(ld - lc) * num`, and record the linking
constraint; `ys` accumulates `y_vars_for_request`. -/
def processCaches (vid rid num ld : Int) (video_sizes : List Int) :
    List (Int × Int) → BState → List (Int × Int) →
    Except PyErr (BState × List (Int × Int))
  | [], st, ys => .ok (st, ys)
  | (cid, lc) :: rest, st, ys =>
    if ld ≤ lc then processCaches vid rid num ld video_sizes rest st ys
    else
      match createX vid cid video_sizes st with
      | .error e => .error e
      | .ok st1 =>
        processCaches vid rid num ld video_sizes rest
          { st1 with
            servingVars := st1.servingVars ++ [(rid, cid, (ld - lc) * num)],
            linkConstrs := st1.linkConstrs ++ [((rid, cid), (vid, cid))] }
          (ys ++ [(rid, cid)])

/-- The outer loop of `build_model` over `requests`: look up the request's
endpoint (`endpoints[eid]`, Python list indexing), process its caches,
and add the assignment constraint exactly when `y_vars_for_request` is
non-empty. -/
def processRequests (endpoints : List Endpoint) (video_sizes : List Int) :
    List Request → BState → Except PyErr BState
  | [], st => .ok st
  | req :: rest, st =>
    match pyListGet endpoints req.endpoint with
    | .error e => .error e
    | .ok ep =>
      match processCaches req.video req.id req.count ep.ld video_sizes
          ep.caches st [] with
      | .error e => .error e
      | .ok (st1, ys) =>
        processRequests endpoints video_sizes rest
          (if ys = [] then st1
           else { st1 with assignConstrs := st1.assignConstrs ++ [(req.id, ys)] })

/-- The finished model: the loop state plus the capacity constraints
`(cache id, accumulator terms, X)` meaning their weighted sum is `<= X`,
and the objective sense (`model.ModelSense = GRB.MAXIMIZE`). -/
structure Model extends BState where
  capConstrs : List (Int × List CapTerm × Int)
  senseMaximize : Bool
deriving Repr, DecidableEq

/-- `capacity = {c: gp.LinExpr() for c in range(C)}`: one empty
accumulator per cache id `0 .. C-1`, in order (`range(C)` is empty when
`C <= 0`). -/
def initCapacity (C : Int) : List (Int × List CapTerm) :=
  (List.range C.toNat).map (fun c : Nat => ((c : Int), []))

/-- `build_model`: run the request loop from the empty state, then add a
capacity constraint `capacity[c] <= X` for each `c in range(C)` whose
accumulator has at least one term (`capacity[c].size() > 0`), and set the
sense to maximize. -/
def build_model (inst : Instance) : Except PyErr Model :=
  match processRequests inst.endpoints inst.video_sizes inst.requests
      ⟨[], initCapacity inst.C, [], [], []⟩ with
  | .error e => .error e
  | .ok st =>
    .ok { st with
      capConstrs := st.capacity.filterMap
        (fun p => if p.2 = [] then none else some (p.1, p.2, inst.X)),
      senseMaximize := true }

example :
    build_model ⟨1, 1, 1, 1, 10, [5], [⟨100, [(0, 10)]⟩], [⟨0, 0, 0, 3⟩]⟩ =
      .ok ⟨⟨[(0, 0)], [(0, [((0, 0), 5)])], [(0, 0, 270)],
        [((0, 0), (0, 0))], [(0, [(0, 0)])]⟩,
        [(0, [((0, 0), 5)], 10)], true⟩ := rfl

example :
    build_model ⟨1, 1, 1, 1, 10, [5], [⟨100, [(0, 150)]⟩], [⟨0, 0, 0, 3⟩]⟩ =
      .ok ⟨⟨[], [(0, [])], [], [], []⟩, [], true⟩ := rfl

/-- Observable events of the pipeline, in order: Gurobi environment and
model creation, the `videos.mps` dump, the `optimize()` call, the write
of the output file (with its lines), and the two `dispose()` calls. -/
inductive Ev where
  | createEnv
  | createModel
  | writeMps
  | optimizeCall
  | writeOut (lines : List String)
  | disposeModel
  | disposeEnv
deriving Repr, DecidableEq

/-- What the external solver does when `model.optimize()` is called: either
it raises, or it completes reporting `model.SolCount` feasible solutions
and a solved value `var.X` for every placement-variable key (values are
rationals: the claims about extraction only compare them with `0.5`). -/
inductive SolveOutcome where
  | raises (e : PyErr)
  | done (solCount : Nat) (vals : Int × Int → ℚ)

/-- `cache_content = {c: [] for c in range(C)}`. -/
def initCacheContent (C : Int) : List (Int × List Int) :=
  (List.range C.toNat).map (fun c : Nat => ((c : Int), []))

/-- `for (vid, cid), var in x.items(): if var.X > 0.5:
cache_content[cid].append(vid)` — group stored videos by cache;
`cache_content[cid]` raises `KeyError` when `cid` is not a key. -/
def groupStep (vals : Int × Int → ℚ) :
    List (Int × Int) → List (Int × List Int) →
    Except PyErr (List (Int × List Int))
  | [], cc => .ok cc
  | (vid, cid) :: rest, cc =>
    if vals (vid, cid) > mkRat 1 2 then
      match cc.find? (fun p => p.1 == cid) with
      | none => .error .keyError
      | some _ =>
        groupStep vals rest
          (cc.map (fun p => if p.1 == cid then (p.1, p.2 ++ [vid]) else p))
    else groupStep vals rest cc

/-- Python `sorted` on a list of integers: ascending, stable. -/
def sortInts (l : List Int) : List Int := l.insertionSort (· ≤ ·)

/-- `used_caches = {c: sorted(vlist) for c, vlist in cache_content.items()
if vlist}` — keep only caches with stored videos, videos sorted. -/
def usedCaches (cc : List (Int × List Int)) : List (Int × List Int) :=
  (cc.filter (fun p => ¬ p.2 = [])).map (fun p => (p.1, sortInts p.2))

/-- `for cid in sorted(used_caches.keys())` followed by the dict lookup:
since the dict keys are distinct this is sorting the association list
ascending by cache id. -/
def sortByKey (l : List (Int × List Int)) : List (Int × List Int) :=
  l.insertionSort (fun p q => p.1 ≤ q.1)

/-- One output line `f"{cid} {videos_str}"` with
`videos_str = " ".join(str(v) for v in ...)`. -/
def outputLine (cid : Int) (vids : List Int) : String :=
  toString cid ++ " " ++ String.intercalate " " (vids.map toString)

/-- The written file: first `f"{len(used_caches)}"`, then one line per
used cache in ascending cache-id order. -/
def outputLines (used : List (Int × List Int)) : List String :=
  toString used.length ::
    (sortByKey used).map (fun p => outputLine p.1 p.2)

/-- `resol_restit`: optimize; when the solver raises, the exception
escapes with nothing disposed.  When `SolCount == 0`, print, dispose
model and environment, return — no file is written.  Otherwise extract
the stored videos from the solved values, write the output file, and
dispose model and environment.  Returns the event trace and the
exception outcome. -/
def resol_restit (m : Model) (C : Int) (outcome : SolveOutcome) :
    List Ev × Except PyErr Unit :=
  match outcome with
  | .raises e => ([.optimizeCall], .error e)
  | .done solCount vals =>
    if solCount = 0 then
      ([.optimizeCall, .disposeModel, .disposeEnv], .ok ())
    else
      match groupStep vals m.x (initCacheContent C) with
      | .error e => ([.optimizeCall], .error e)
      | .ok cc =>
        ([.optimizeCall, .writeOut (outputLines (usedCaches cc)),
          .disposeModel, .disposeEnv], .ok ())

/-- `build_model` with its resource events: the environment and model are
created first; on success the model is dumped to `videos.mps`; on an
exception nothing is disposed. -/
def build_model_tr (inst : Instance) : List Ev × Except PyErr Model :=
  match build_model inst with
  | .ok m => ([.createEnv, .createModel, .writeMps], .ok m)
  | .error e => ([.createEnv, .createModel], .error e)

/-- `main`'s pipeline after argument handling: parse, build, solve and
write.  An exception in any stage propagates; the trace records every
resource and file event that happened before it. -/
def pipeline (input : List (List Int)) (outcome : SolveOutcome) :
    List Ev × Except PyErr Unit :=
  match lire_instance input with
  | .error e => ([], .error e)
  | .ok inst =>
    let (tr1, r1) := build_model_tr inst
    match r1 with
    | .error e => (tr1, .error e)
    | .ok m =>
      let (tr2, r2) := resol_restit m inst.C outcome
      (tr1 ++ tr2, r2)

example :
    pipeline [[1, 1, 1, 1, 10], [5], [100, 1], [0, 10], [0, 0, 3]]
      (.done 1 (fun _ => 1)) =
    ([.createEnv, .createModel, .writeMps, .optimizeCall,
      .writeOut ["1", "0 0"], .disposeModel, .disposeEnv], .ok ()) := rfl

example :
    pipeline [[1, 1, 1, 1, 10], [5], [100, 1], [0, 150], [0, 0, 3]]
      (.done 1 (fun _ => 1)) =
    ([.createEnv, .createModel, .writeMps, .optimizeCall,
      .writeOut ["0"], .disposeModel, .disposeEnv], .ok ()) := rfl

/-- Spec-side description of §4.3 classification and grouping: the videos
stored on cache `c` are the placement keys of `x` on cache `c` whose
solved value exceeds one half, in `x` creation order. -/
def storedVideos (vals : Int × Int → ℚ) (x : List (Int × Int)) (c : Int) :
    List Int :=
  (x.filter (fun q => decide (vals q > mkRat 1 2) && (q.2 == c))).map
    (fun q => q.1)

lemma storedVideos_cons (vals : Int × Int → ℚ) (q : Int × Int)
    (rest : List (Int × Int)) (c : Int) :
    storedVideos vals (q :: rest) c =
      if vals q > mkRat 1 2 ∧ q.2 = c then q.1 :: storedVideos vals rest c
      else storedVideos vals rest c := by
  simp only [storedVideos, List.filter_cons]
  by_cases hv : vals q > mkRat 1 2
  · by_cases hc : q.2 = c
    · simp [hv, hc]
    · simp [hv, hc]
  · simp [hv]

lemma updateKeys (cc : List (Int × List Int)) (cid vid : Int) :
    (cc.map (fun p => if p.1 == cid then (p.1, p.2 ++ [vid]) else p)).map
      Prod.fst = cc.map Prod.fst := by
  rw [List.map_map]
  apply List.map_congr_left
  intro p _
  by_cases hpc : p.1 = cid <;> simp [hpc]

lemma groupStep_eq (vals : Int × Int → ℚ) :
    ∀ (x : List (Int × Int)) (cc : List (Int × List Int)),
    (∀ q ∈ x, vals q > mkRat 1 2 → q.2 ∈ cc.map Prod.fst) →
    groupStep vals x cc =
      .ok (cc.map (fun p => (p.1, p.2 ++ storedVideos vals x p.1))) := by
  intro x
  induction x with
  | nil =>
    intro cc _
    simp [groupStep, storedVideos]
  | cons q rest ih =>
    intro cc hcc
    obtain ⟨vid, cid⟩ := q
    by_cases hv : vals (vid, cid) > mkRat 1 2
    · have hkey : cid ∈ cc.map Prod.fst := hcc (vid, cid) (by simp) hv
      have hfind : (cc.find? (fun p => p.1 == cid)).isSome := by
        rw [List.find?_isSome]
        obtain ⟨p, hp, hp1⟩ := List.mem_map.mp hkey
        exact ⟨p, hp, by simp [hp1]⟩
      obtain ⟨p0, hp0⟩ := Option.isSome_iff_exists.mp hfind
      have step : groupStep vals ((vid, cid) :: rest) cc =
          groupStep vals rest
            (cc.map (fun p => if p.1 == cid then (p.1, p.2 ++ [vid]) else p)) := by
        simp only [groupStep, if_pos hv, hp0]
      rw [step, ih _ ?_, List.map_map]
      · congr 1
        apply List.map_congr_left
        intro p _
        simp only [Function.comp_apply]
        by_cases hpc : p.1 = cid
        · rw [if_pos (by simp [hpc])]
          simp [storedVideos_cons, hv, hpc, List.append_assoc]
        · rw [if_neg (by simp [hpc]), storedVideos_cons,
            if_neg (fun hh => hpc hh.2.symm)]
      · intro q hq hvq
        rw [updateKeys]
        exact hcc q (List.mem_cons_of_mem _ hq) hvq
    · have step : groupStep vals ((vid, cid) :: rest) cc =
          groupStep vals rest cc := by
        simp only [groupStep, if_neg hv]
      rw [step, ih _ ?_]
      · congr 1
        apply List.map_congr_left
        intro p _
        rw [storedVideos_cons, if_neg (by simp [hv])]
      · intro q hq hvq
        exact hcc q (List.mem_cons_of_mem _ hq) hvq

lemma initCacheContent_keys (C : Int) :
    (initCacheContent C).map Prod.fst =
      (List.range C.toNat).map (fun n : Nat => (n : Int)) := by
  rw [initCacheContent, List.map_map]
  rfl

lemma groupStep_init (vals : Int × Int → ℚ) (C : Int) (x : List (Int × Int))
    (h : ∀ q ∈ x, vals q > mkRat 1 2 → q.2 ∈ (initCacheContent C).map Prod.fst) :
    groupStep vals x (initCacheContent C) =
      .ok ((List.range C.toNat).map
        (fun n : Nat => ((n : Int), storedVideos vals x (n : Int)))) := by
  rw [groupStep_eq vals x _ h, initCacheContent, List.map_map]
  rfl


lemma mem_usedCaches {cc : List (Int × List Int)} {c : Int}
    {vids : List Int} :
    (c, vids) ∈ usedCaches cc ↔
      ∃ l, (c, l) ∈ cc ∧ ¬ l = [] ∧ vids = sortInts l := by
  simp only [usedCaches, List.mem_map, List.mem_filter]
  constructor
  · rintro ⟨⟨c0, l⟩, ⟨hp, hne⟩, heq⟩
    simp only [Prod.mk.injEq] at heq
    obtain ⟨rfl, rfl⟩ := heq
    exact ⟨l, hp, by simpa using hne, rfl⟩
  · rintro ⟨l, hl, hne, hv⟩
    exact ⟨(c, l), ⟨hl, by simpa using hne⟩, by simp [hv]⟩

lemma mem_range_intCast {c : Int} {n : Nat} :
    c ∈ (List.range n).map (fun k : Nat => (k : Int)) ↔
      0 ≤ c ∧ c < (n : Int) := by
  rw [List.mem_map]
  constructor
  · rintro ⟨k, hk, rfl⟩
    rw [List.mem_range] at hk
    omega
  · rintro ⟨h0, hn⟩
    refine ⟨c.toNat, ?_, ?_⟩
    · rw [List.mem_range]; omega
    · omega

lemma mem_range_pair {n : Nat} {f : Int → List Int} {c : Int}
    {l : List Int} :
    (c, l) ∈ (List.range n).map (fun k : Nat => ((k : Int), f (k : Int))) ↔
      (0 ≤ c ∧ c < (n : Int)) ∧ l = f c := by
  rw [List.mem_map]
  constructor
  · rintro ⟨k, hk, heq⟩
    rw [List.mem_range] at hk
    simp only [Prod.mk.injEq] at heq
    obtain ⟨rfl, rfl⟩ := heq
    exact ⟨by omega, rfl⟩
  · rintro ⟨⟨h0, hn⟩, rfl⟩
    refine ⟨c.toNat, ?_, ?_⟩
    · rw [List.mem_range]; omega
    · have : ((c.toNat : Nat) : Int) = c := by omega
      rw [this]

lemma sorted_keys_range_filter {n : Nat} {f : Int → List Int}
    (l : List (Int × List Int))
    (hl : l = ((List.range n).map
      (fun k : Nat => ((k : Int), f (k : Int)))).filter
        (fun p => ¬ p.2 = [])) :
    (l.map Prod.fst).Sorted (· < ·) := by
  subst hl
  have hsub : List.Sublist
      ((((List.range n).map
        (fun k : Nat => ((k : Int), f (k : Int)))).filter
          (fun p => ¬ p.2 = [])).map Prod.fst)
      (((List.range n).map
        (fun k : Nat => ((k : Int), f (k : Int)))).map Prod.fst) :=
    (List.filter_sublist _).map Prod.fst
  have hkeys : (((List.range n).map
      (fun k : Nat => ((k : Int), f (k : Int)))).map Prod.fst) =
      (List.range n).map (fun k : Nat => (k : Int)) := by
    rw [List.map_map]; rfl
  rw [hkeys] at hsub
  have hsorted : ((List.range n).map
      (fun k : Nat => (k : Int))).Sorted (· < ·) := by
    refine List.Pairwise.map _ ?_ (List.sorted_lt_range n)
    intro a b hab
    exact_mod_cast hab
  exact hsorted.sublist hsub

lemma range_cast_sorted (n : Nat) :
    ((List.range n).map (fun k : Nat => (k : Int))).Sorted (· < ·) := by
  refine List.Pairwise.map _ ?_ (List.sorted_lt_range n)
  intro a b hab
  exact_mod_cast hab

lemma usedCaches_keys_sublist (cc : List (Int × List Int)) :
    List.Sublist ((usedCaches cc).map Prod.fst) (cc.map Prod.fst) := by
  rw [usedCaches, List.map_map]
  exact (List.filter_sublist _).map Prod.fst

lemma sortByKey_eq_self {l : List (Int × List Int)}
    (h : (l.map Prod.fst).Sorted (· < ·)) : sortByKey l = l := by
  apply List.Sorted.insertionSort_eq
  have h1 : l.Pairwise (fun p q => p.1 < q.1) := (List.pairwise_map).mp h
  exact h1.imp (fun hpq => le_of_lt hpq)

lemma outputLines_of_sorted (used : List (Int × List Int))
    (h : (used.map Prod.fst).Sorted (· < ·)) :
    outputLines used =
      toString used.length :: used.map (fun p => outputLine p.1 p.2) := by
  rw [outputLines, sortByKey_eq_self h]

lemma resol_restit_done_pos (m : Model) (C : Int) (n : Nat)
    (vals : Int × Int → ℚ) (hn : ¬ n = 0) (cc : List (Int × List Int))
    (hcc : groupStep vals m.x (initCacheContent C) = .ok cc) :
    resol_restit m C (.done n vals) =
      ([.optimizeCall, .writeOut (outputLines (usedCaches cc)),
        .disposeModel, .disposeEnv], .ok ()) := by
  simp [resol_restit, hn, hcc]

/-- C8: solution extraction classifies a placement variable as stored
exactly when its solved value exceeds 0.5 (`storedVideos`), groups stored
videos by cache, sorts each cache's list ascending by video id, drops
caches with empty lists, and writes a first line holding the number of
non-empty caches followed by one line per used cache in ascending
cache-id order with the cache id then its video ids. -/
theorem extraction_classifies_groups_sorts (m : Model) (C : Int) (n : Nat)
    (vals : Int × Int → ℚ) (hn : ¬ n = 0)
    (hrange : ∀ q ∈ m.x, 0 ≤ q.2 ∧ q.2 < C) :
    ∃ used : List (Int × List Int),
      resol_restit m C (.done n vals) =
        ([.optimizeCall, .writeOut (outputLines used), .disposeModel,
          .disposeEnv], .ok ()) ∧
      (∀ c vids, (c, vids) ∈ used ↔
        (0 ≤ c ∧ c < C ∧ ¬ storedVideos vals m.x c = [] ∧
          vids = sortInts (storedVideos vals m.x c))) ∧
      (∀ c vids, (c, vids) ∈ used →
        vids.Sorted (· ≤ ·) ∧ vids.Perm (storedVideos vals m.x c)) ∧
      ((used.map Prod.fst).Sorted (· < ·)) ∧
      outputLines used =
        toString used.length :: used.map (fun p => outputLine p.1 p.2) := by
  have hkey : ∀ q ∈ m.x, vals q > mkRat 1 2 →
      q.2 ∈ (initCacheContent C).map Prod.fst := by
    intro q hq _
    rw [initCacheContent_keys, mem_range_intCast]
    have := hrange q hq
    omega
  have hcc := groupStep_init vals C m.x hkey
  set cc : List (Int × List Int) := (List.range C.toNat).map
    (fun k : Nat => ((k : Int), storedVideos vals m.x (k : Int))) with hccdef
  have hmem : ∀ c vids, (c, vids) ∈ usedCaches cc ↔
      (0 ≤ c ∧ c < C ∧ ¬ storedVideos vals m.x c = [] ∧
        vids = sortInts (storedVideos vals m.x c)) := by
    intro c vids
    rw [mem_usedCaches]
    constructor
    · rintro ⟨l, hl, hne, rfl⟩
      rw [hccdef, mem_range_pair] at hl
      obtain ⟨⟨h0, hC⟩, rfl⟩ := hl
      have := Int.toNat_of_nonneg (le_of_lt (lt_of_le_of_lt h0 hC))
      refine ⟨h0, by omega, hne, rfl⟩
    · rintro ⟨h0, hC, hne, rfl⟩
      refine ⟨storedVideos vals m.x c, ?_, hne, rfl⟩
      rw [hccdef, mem_range_pair]
      exact ⟨⟨h0, by omega⟩, rfl⟩
  have hkeys : (cc.map Prod.fst).Sorted (· < ·) := by
    have : cc.map Prod.fst =
        (List.range C.toNat).map (fun k : Nat => (k : Int)) := by
      rw [hccdef, List.map_map]; rfl
    rw [this]
    exact range_cast_sorted _
  have husort : ((usedCaches cc).map Prod.fst).Sorted (· < ·) :=
    hkeys.sublist (usedCaches_keys_sublist cc)
  refine ⟨usedCaches cc, resol_restit_done_pos m C n vals hn cc hcc, hmem,
    ?_, husort, outputLines_of_sorted _ husort⟩
  intro c vids hcv
  obtain ⟨-, -, -, rfl⟩ := (hmem c vids).mp hcv
  constructor
  · exact List.sorted_insertionSort _ _
  · exact List.perm_insertionSort _ _

/-- Witness for C8: the extraction theorem applied to the model built
from the one-video, one-cache example instance, with every solved value
equal to 1. -/
theorem extraction_classifies_groups_sorts_witness :
    ∃ used : List (Int × List Int),
      resol_restit
        ⟨⟨[(0, 0)], [(0, [((0, 0), 5)])], [(0, 0, 270)],
          [((0, 0), (0, 0))], [(0, [(0, 0)])]⟩,
          [(0, [((0, 0), 5)], 10)], true⟩ 1 (.done 1 (fun _ => 1)) =
        ([.optimizeCall, .writeOut (outputLines used), .disposeModel,
          .disposeEnv], .ok ()) :=
  match extraction_classifies_groups_sorts
      ⟨⟨[(0, 0)], [(0, [((0, 0), 5)])], [(0, 0, 270)],
        [((0, 0), (0, 0))], [(0, [(0, 0)])]⟩,
        [(0, [((0, 0), 5)], 10)], true⟩ 1 1 (fun _ => 1)
      (by decide) (by decide) with
  | ⟨used, h1, _⟩ => ⟨used, h1⟩

/-- C9: when the solve reports zero feasible solutions, `resol_restit`
writes no output file, disposes the model and the environment, and
returns normally — no exception escapes. -/
theorem no_solution_no_output (m : Model) (C : Int)
    (vals : Int × Int → ℚ) :
    resol_restit m C (.done 0 vals) =
      ([.optimizeCall, .disposeModel, .disposeEnv], .ok ()) ∧
    (∀ lines, Ev.writeOut lines ∉ (resol_restit m C (.done 0 vals)).1) ∧
    (resol_restit m C (.done 0 vals)).2 = .ok () := by
  refine ⟨rfl, ?_, rfl⟩
  intro lines
  show Ev.writeOut lines ∉ [Ev.optimizeCall, Ev.disposeModel, Ev.disposeEnv]
  simp

/-- Counterexample for C1: the claim "the sum of the sizes of the listed
videos is checked against the capacity X, and a violation raises a fatal
internal-consistency error before anything is serialized; a
capacity-violating solution is never written" is false.  On the instance
with X = 1 and a single video of size 5, solved values that store the
video (an adapter/solver bug, exactly the scenario the defensive check is
claimed for) make the pipeline write the violating listing `0 0` and
return normally: no check exists in `resol_restit`. -/
theorem capacity_invariant_recheck_cex :
    pipeline [[1, 1, 1, 1, 1], [5], [100, 1], [0, 10], [0, 0, 3]]
        (.done 1 (fun _ => 1)) =
      ([.createEnv, .createModel, .writeMps, .optimizeCall,
        .writeOut ["1", "0 0"], .disposeModel, .disposeEnv], .ok ()) ∧
    (lire_instance [[1, 1, 1, 1, 1], [5], [100, 1], [0, 10], [0, 0, 3]]).map
        (fun inst => (inst.X, inst.video_sizes)) = .ok (1, [5]) ∧
    ((lire_instance [[1, 1, 1, 1, 1], [5], [100, 1], [0, 10], [0, 0, 3]] >>=
        build_model).map
      (fun m => storedVideos (fun _ => 1) m.x 0)) = .ok [0] ∧
    ¬ (5 : Int) ≤ 1 :=
  ⟨rfl, rfl, rfl, by decide⟩

/-- C1 as amended: `resol_restit` performs no capacity check at all.
Whenever the solve reports at least one solution and grouping succeeds,
the extracted listing — including any entry whose video sizes sum to more
than X — is serialized unchanged and no error is raised. -/
theorem extraction_serializes_without_capacity_check (m : Model) (C : Int)
    (n : Nat) (vals : Int × Int → ℚ) (hn : ¬ n = 0)
    (cc : List (Int × List Int))
    (hcc : groupStep vals m.x (initCacheContent C) = .ok cc) :
    resol_restit m C (.done n vals) =
      ([.optimizeCall, .writeOut (outputLines (usedCaches cc)),
        .disposeModel, .disposeEnv], .ok ()) :=
  resol_restit_done_pos m C n vals hn cc hcc

/-- Witness for the amended C1: the capacity-violating model (X = 1, one
stored video of size 5, capacity constraint bound 1) is serialized
without any error. -/
theorem extraction_serializes_without_capacity_check_witness :
    resol_restit
      ⟨⟨[(0, 0)], [(0, [((0, 0), 5)])], [(0, 0, 270)],
        [((0, 0), (0, 0))], [(0, [(0, 0)])]⟩,
        [(0, [((0, 0), 5)], 1)], true⟩ 1 (.done 1 (fun _ => 1)) =
      ([.optimizeCall, .writeOut (outputLines (usedCaches [(0, [0])])),
        .disposeModel, .disposeEnv], .ok ()) :=
  extraction_serializes_without_capacity_check
    ⟨⟨[(0, 0)], [(0, [((0, 0), 5)])], [(0, 0, 270)],
      [((0, 0), (0, 0))], [(0, [(0, 0)])]⟩,
      [(0, [((0, 0), 5)], 1)], true⟩ 1 1 (fun _ => 1) (by decide)
    [(0, [0])] rfl

/-- Counterexample for C2: the claim "on every exit path — successful
solve, zero feasible solutions, and failure during model building or
solving — the environment and model are released" is false.  When
building fails (here: an eligible out-of-range cache id 5 raises
`KeyError` at `capacity[cid]`), and likewise when `optimize()` raises,
the environment and model were created but nothing is disposed. -/
theorem resources_leak_on_failure_cex :
    pipeline [[1, 1, 1, 1, 10], [3], [100, 1], [5, 10], [0, 0, 1]]
        (.done 1 (fun _ => 1)) =
      ([.createEnv, .createModel], .error .keyError) ∧
    Ev.createEnv ∈
      (pipeline [[1, 1, 1, 1, 10], [3], [100, 1], [5, 10], [0, 0, 1]]
        (.done 1 (fun _ => 1))).1 ∧
    Ev.disposeModel ∉
      (pipeline [[1, 1, 1, 1, 10], [3], [100, 1], [5, 10], [0, 0, 1]]
        (.done 1 (fun _ => 1))).1 ∧
    Ev.disposeEnv ∉
      (pipeline [[1, 1, 1, 1, 10], [3], [100, 1], [5, 10], [0, 0, 1]]
        (.done 1 (fun _ => 1))).1 ∧
    pipeline [[1, 1, 1, 1, 10], [5], [100, 1], [0, 10], [0, 0, 3]]
        (.raises (.valueError "GurobiError")) =
      ([.createEnv, .createModel, .writeMps, .optimizeCall],
        .error (.valueError "GurobiError")) ∧
    Ev.disposeEnv ∉
      (pipeline [[1, 1, 1, 1, 10], [5], [100, 1], [0, 10], [0, 0, 3]]
        (.raises (.valueError "GurobiError"))).1 :=
  ⟨rfl, by decide, by decide, by decide, rfl, by decide⟩

/-- C2 as amended: the solver environment and model are disposed exactly
on the two non-exceptional exit paths (successful solve with output
written, and zero feasible solutions); every path on which an exception
propagates — parse failure aside, where nothing was acquired — leaks
both. -/
theorem resources_released_on_nonexceptional_exits
    (input : List (List Int)) (oc : SolveOutcome) :
    ((pipeline input oc).2 = .ok () →
      Ev.disposeModel ∈ (pipeline input oc).1 ∧
        Ev.disposeEnv ∈ (pipeline input oc).1) ∧
    (∀ e, (pipeline input oc).2 = .error e →
      Ev.disposeModel ∉ (pipeline input oc).1 ∧
        Ev.disposeEnv ∉ (pipeline input oc).1) := by
  cases hL : lire_instance input with
  | error e => simp [pipeline, hL]
  | ok inst =>
    cases hB : build_model inst with
    | error e => simp [pipeline, hL, build_model_tr, hB]
    | ok m =>
      cases oc with
      | raises e => simp [pipeline, hL, build_model_tr, hB, resol_restit]
      | done n vals =>
        by_cases hn : n = 0
        · subst hn
          simp [pipeline, hL, build_model_tr, hB, resol_restit]
        · cases hG : groupStep vals m.x (initCacheContent inst.C) with
          | error e =>
            simp [pipeline, hL, build_model_tr, hB, resol_restit, hn, hG]
          | ok cc =>
            simp [pipeline, hL, build_model_tr, hB, resol_restit, hn, hG]

/-- Witness for the amended C2: on a successful concrete run both
dispose events occur; on a concrete failing build neither does. -/
theorem resources_released_on_nonexceptional_exits_witness :
    (Ev.disposeModel ∈
        (pipeline [[1, 1, 1, 1, 10], [5], [100, 1], [0, 10], [0, 0, 3]]
          (.done 1 (fun _ => 1))).1 ∧
      Ev.disposeEnv ∈
        (pipeline [[1, 1, 1, 1, 10], [5], [100, 1], [0, 10], [0, 0, 3]]
          (.done 1 (fun _ => 1))).1) ∧
    (Ev.disposeModel ∉
        (pipeline [[1, 1, 1, 1, 10], [3], [100, 1], [5, 10], [0, 0, 1]]
          (.done 1 (fun _ => 1))).1 ∧
      Ev.disposeEnv ∉
        (pipeline [[1, 1, 1, 1, 10], [3], [100, 1], [5, 10], [0, 0, 1]]
          (.done 1 (fun _ => 1))).1) :=
  ⟨(resources_released_on_nonexceptional_exits
      [[1, 1, 1, 1, 10], [5], [100, 1], [0, 10], [0, 0, 3]]
      (.done 1 (fun _ => 1))).1 rfl,
    (resources_released_on_nonexceptional_exits
      [[1, 1, 1, 1, 10], [3], [100, 1], [5, 10], [0, 0, 1]]
      (.done 1 (fun _ => 1))).2 .keyError rfl⟩

/-- Spec-side (§4.2): the reachable caches of endpoint `ep` that are
strictly faster than the data center. -/
def eligCaches (ep : Endpoint) : List (Int × Int) :=
  ep.caches.filter (fun p => p.2 < ep.ld)

/-- Spec-side: request `req` makes placement pair `q = (video, cache)`
eligible — `q.1` is its video and `q.2` a cache reachable from its
endpoint with latency strictly below the origin latency. -/
def EligPair (endpoints : List Endpoint) (req : Request) (q : Int × Int) :
    Prop :=
  q.1 = req.video ∧ ∃ ep, pyListGet endpoints req.endpoint = .ok ep ∧
    ∃ lc, (q.2, lc) ∈ ep.caches ∧ lc < ep.ld

/-- Spec-side: the serving variables one request generates. -/
def specServing (endpoints : List Endpoint) (req : Request) :
    List (Int × Int × Int) :=
  match pyListGet endpoints req.endpoint with
  | .ok ep => (eligCaches ep).map
      (fun p => (req.id, p.1, (ep.ld - p.2) * req.count))
  | .error _ => []

/-- Spec-side: the assignment constraint one request generates, when it
has at least one eligible cache. -/
def specAssign (endpoints : List Endpoint) (req : Request) :
    Option (Int × List (Int × Int)) :=
  match pyListGet endpoints req.endpoint with
  | .ok ep =>
    if eligCaches ep = [] then none
    else some (req.id, (eligCaches ep).map (fun p => (req.id, p.1)))
  | .error _ => none

/-- Spec-side: what cache `c`'s capacity accumulator must hold — one term
per placement key of `x` on cache `c`, with the video's size. -/
def capFormula (video_sizes : List Int) (x : List (Int × Int)) (c : Int) :
    List CapTerm :=
  (x.filter (fun q => q.2 == c)).filterMap
    (fun q => (pyListGet video_sizes q.1).toOption.map (fun s => (q, s)))

/-- Invariant of the build loop: capacity keys are duplicate-free, every
placement key has a valid size, and every accumulator equals its
formula. -/
def CapInvariant (video_sizes : List Int) (st : BState) : Prop :=
  (st.capacity.map Prod.fst).Nodup ∧
  (∀ q ∈ st.x, ∃ s, pyListGet video_sizes q.1 = .ok s) ∧
  (∀ p ∈ st.capacity, p.2 = capFormula video_sizes st.x p.1)

lemma nodup_keys_unique {α : Type} {l : List (Int × α)}
    (h : (l.map Prod.fst).Nodup) {c : Int} {a b : α}
    (ha : (c, a) ∈ l) (hb : (c, b) ∈ l) : a = b := by
  induction l with
  | nil => cases ha
  | cons p t ih =>
    rw [List.map_cons, List.nodup_cons] at h
    rcases List.mem_cons.mp ha with ha1 | ha1 <;>
      rcases List.mem_cons.mp hb with hb1 | hb1
    · exact (Prod.ext_iff.mp (ha1.trans hb1.symm)).2
    · exact absurd (List.mem_map.mpr ⟨(c, b), hb1, by rw [← ha1]⟩) h.1
    · exact absurd (List.mem_map.mpr ⟨(c, a), ha1, by rw [← hb1]⟩) h.1
    · exact ih h.2 ha1 hb1

lemma capStore_keys (cap : List (Int × List CapTerm)) (c : Int)
    (e : List CapTerm) :
    (capStore cap c e).map Prod.fst = cap.map Prod.fst := by
  rw [capStore, List.map_map]
  apply List.map_congr_left
  intro p _
  by_cases hpc : p.1 = c <;> simp [hpc]

lemma capFormula_append (video_sizes : List Int) (x : List (Int × Int))
    (vid cid sz : Int) (c : Int)
    (hsz : pyListGet video_sizes vid = .ok sz) :
    capFormula video_sizes (x ++ [(vid, cid)]) c =
      capFormula video_sizes x c ++
        (if cid = c then [((vid, cid), sz)] else []) := by
  rw [capFormula, capFormula, List.filter_append, List.filterMap_append]
  congr 1
  by_cases hc : cid = c
  · simp [hc, hsz, Except.toOption]
  · simp [hc]

lemma createX_parts {vid cid : Int} {sizes : List Int} {st st1 : BState}
    (h : createX vid cid sizes st = .ok st1) :
    st1.servingVars = st.servingVars ∧ st1.linkConstrs = st.linkConstrs ∧
    st1.assignConstrs = st.assignConstrs ∧
    st1.capacity.map Prod.fst = st.capacity.map Prod.fst := by
  unfold createX at h
  split at h
  · cases h
    exact ⟨rfl, rfl, rfl, rfl⟩
  · split at h
    · cases h
    · split at h
      · cases h
      · cases h
        exact ⟨rfl, rfl, rfl, capStore_keys ..⟩

lemma createX_mem_x {vid cid : Int} {sizes : List Int} {st st1 : BState}
    (h : createX vid cid sizes st = .ok st1) :
    ∀ q, q ∈ st1.x ↔ q ∈ st.x ∨ q = (vid, cid) := by
  intro q
  unfold createX at h
  split at h
  · cases h
    rename_i hin
    constructor
    · exact fun hq => Or.inl hq
    · rintro (hq | rfl)
      · exact hq
      · exact hin
  · split at h
    · cases h
    · split at h
      · cases h
      · cases h
        simp [List.mem_append]

lemma createX_nodup {vid cid : Int} {sizes : List Int} {st st1 : BState}
    (h : createX vid cid sizes st = .ok st1) (hn : st.x.Nodup) :
    st1.x.Nodup := by
  unfold createX at h
  split at h
  · cases h; exact hn
  · rename_i hnotin
    split at h
    · cases h
    · split at h
      · cases h
      · cases h
        simpa [List.nodup_append] using ⟨hn, hnotin⟩

lemma capLookup_ok {cap : List (Int × List CapTerm)} {c : Int}
    {entry : List CapTerm} (h : capLookup cap c = .ok entry) :
    (c, entry) ∈ cap := by
  unfold capLookup at h
  cases hf : cap.find? (fun p => p.1 == c) with
  | none => rw [hf] at h; cases h
  | some pf =>
    rw [hf] at h
    injection h with h1
    have hmem := List.mem_of_find?_eq_some hf
    have hpred : pf.1 = c := by simpa using List.find?_some hf
    have hpf : pf = (c, entry) := by
      rw [← hpred, ← h1]
    rwa [hpf] at hmem

lemma createX_capInv {vid cid : Int} {sizes : List Int} {st st1 : BState}
    (h : createX vid cid sizes st = .ok st1)
    (hinv : CapInvariant sizes st) : CapInvariant sizes st1 := by
  obtain ⟨hnd, hok, hcap⟩ := hinv
  unfold createX at h
  split at h
  · cases h
    exact ⟨hnd, hok, hcap⟩
  · cases hL : capLookup st.capacity cid with
    | error e => rw [hL] at h; cases h
    | ok entry =>
      rw [hL] at h
      cases hS : pyListGet sizes vid with
      | error e => rw [hS] at h; cases h
      | ok sz =>
        rw [hS] at h
        cases h
        have hentry : (cid, entry) ∈ st.capacity := capLookup_ok hL
        have hentry_eq : entry = capFormula sizes st.x cid := hcap _ hentry
        refine ⟨?_, ?_, ?_⟩
        · show ((capStore st.capacity cid _).map Prod.fst).Nodup
          rwa [capStore_keys]
        · intro q hq
          rcases List.mem_append.mp hq with hq1 | hq1
          · exact hok q hq1
          · rw [List.mem_singleton.mp hq1]
            exact ⟨sz, hS⟩
        · intro p hp
          obtain ⟨p0, hp0, heq⟩ := List.mem_map.mp hp
          by_cases hpc : p0.1 = cid
          · rw [if_pos (by simpa using hpc)] at heq
            have hp02 : p0.2 = capFormula sizes st.x p0.1 := hcap _ hp0
            rw [← heq]
            show entry ++ [((vid, cid), sz)] =
              capFormula sizes (st.x ++ [(vid, cid)]) cid
            rw [capFormula_append sizes st.x vid cid sz cid hS, if_pos rfl,
              hentry_eq]
          · rw [if_neg (by simpa using hpc)] at heq
            rw [← heq]
            rw [capFormula_append sizes st.x vid cid sz p0.1 hS,
              if_neg (fun hh => hpc hh.symm), List.append_nil]
            exact hcap _ hp0

lemma processCaches_fields (vid rid num ld : Int) (sizes : List Int) :
    ∀ (caches : List (Int × Int)) (st : BState) (ys : List (Int × Int))
      (st2 : BState) (ys2 : List (Int × Int)),
      processCaches vid rid num ld sizes caches st ys = .ok (st2, ys2) →
      st2.servingVars = st.servingVars ++
        (caches.filter (fun p => p.2 < ld)).map
          (fun p => (rid, p.1, (ld - p.2) * num)) ∧
      ys2 = ys ++
        (caches.filter (fun p => p.2 < ld)).map (fun p => (rid, p.1)) ∧
      st2.assignConstrs = st.assignConstrs ∧
      st2.capacity.map Prod.fst = st.capacity.map Prod.fst ∧
      st2.linkConstrs = st.linkConstrs ++
        (caches.filter (fun p => p.2 < ld)).map
          (fun p => ((rid, p.1), (vid, p.1))) := by
  intro caches
  induction caches with
  | nil =>
    intro st ys st2 ys2 h
    simp only [processCaches] at h
    injection h with h1
    injection h1 with ha hb
    subst ha
    subst hb
    simp
  | cons hd rest ih =>
    obtain ⟨cid, lc⟩ := hd
    intro st ys st2 ys2 h
    simp only [processCaches] at h
    by_cases hskip : ld ≤ lc
    · rw [if_pos hskip] at h
      obtain ⟨h1, h2, h3, h4, h5⟩ := ih st ys st2 ys2 h
      have hf : ((cid, lc) :: rest).filter (fun p => p.2 < ld) =
          rest.filter (fun p => p.2 < ld) := by
        simp [List.filter_cons, not_lt.mpr hskip]
      rw [hf]
      exact ⟨h1, h2, h3, h4, h5⟩
    · rw [if_neg hskip] at h
      cases hX : createX vid cid sizes st with
      | error e => rw [hX] at h; cases h
      | ok st1 =>
        rw [hX] at h
        obtain ⟨h1, h2, h3, h4, h5⟩ := ih _ _ _ _ h
        obtain ⟨hs, hl, ha, hk⟩ := createX_parts hX
        have hf : ((cid, lc) :: rest).filter (fun p => p.2 < ld) =
            (cid, lc) :: rest.filter (fun p => p.2 < ld) := by
          simp [List.filter_cons, not_le.mp hskip]
      
        rw [hf]
        refine ⟨?_, ?_, ?_, ?_, ?_⟩
        · rw [h1]
          show (st1.servingVars ++ [(rid, cid, (ld - lc) * num)]) ++ _ = _
          rw [hs, List.append_assoc]
          rfl
        · rw [h2, List.append_assoc]
          rfl
        · rw [h3]
          exact ha
        · rw [h4]
          exact hk
        · rw [h5]
          show (st1.linkConstrs ++ [((rid, cid), (vid, cid))]) ++ _ = _
          rw [hl, List.append_assoc]
          rfl

lemma processCaches_mem_x (vid rid num ld : Int) (sizes : List Int) :
    ∀ (caches : List (Int × Int)) (st : BState) (ys : List (Int × Int))
      (st2 : BState) (ys2 : List (Int × Int)),
      processCaches vid rid num ld sizes caches st ys = .ok (st2, ys2) →
      ∀ q, q ∈ st2.x ↔ q ∈ st.x ∨
        (q.1 = vid ∧ ∃ lc, (q.2, lc) ∈ caches ∧ lc < ld) := by
  intro caches
  induction caches with
  | nil =>
    intro st ys st2 ys2 h q
    simp only [processCaches] at h
    injection h with h1
    injection h1 with ha hb
    subst ha
    simp
  | cons hd rest ih =>
    obtain ⟨cid, lc0⟩ := hd
    intro st ys st2 ys2 h q
    simp only [processCaches] at h
    by_cases hskip : ld ≤ lc0
    · rw [if_pos hskip] at h
      refine Iff.trans (ih _ _ _ _ h q) ?_
      constructor
      · rintro (hq | ⟨hv, lc, hmem, hlt⟩)
        · exact Or.inl hq
        · exact Or.inr ⟨hv, lc, List.mem_cons_of_mem _ hmem, hlt⟩
      · rintro (hq | ⟨hv, lc, hmem, hlt⟩)
        · exact Or.inl hq
        · rcases List.mem_cons.mp hmem with heq | hmem2
          · injection heq with e1 e2
            exact absurd hlt (by rw [e2]; exact not_lt.mpr hskip)
          · exact Or.inr ⟨hv, lc, hmem2, hlt⟩
    · rw [if_neg hskip] at h
      cases hX : createX vid cid sizes st with
      | error e => rw [hX] at h; cases h
      | ok st1 =>
        rw [hX] at h
        refine Iff.trans (ih _ _ _ _ h q) ?_
        constructor
        · rintro (hq1 | ⟨hv, lc, hmem, hlt⟩)
          · rcases (createX_mem_x hX q).mp hq1 with hq | rfl
            · exact Or.inl hq
            · exact Or.inr
                ⟨rfl, lc0, List.mem_cons_self _ _, not_le.mp hskip⟩
          · exact Or.inr ⟨hv, lc, List.mem_cons_of_mem _ hmem, hlt⟩
        · rintro (hq | ⟨hv, lc, hmem, hlt⟩)
          · exact Or.inl ((createX_mem_x hX q).mpr (Or.inl hq))
          · rcases List.mem_cons.mp hmem with heq | hmem2
            · injection heq with e1 e2
              exact Or.inl ((createX_mem_x hX q).mpr
                (Or.inr (Prod.ext_iff.mpr ⟨hv, e1⟩)))
            · exact Or.inr ⟨hv, lc, hmem2, hlt⟩

lemma processCaches_nodup (vid rid num ld : Int) (sizes : List Int) :
    ∀ (caches : List (Int × Int)) (st : BState) (ys : List (Int × Int))
      (st2 : BState) (ys2 : List (Int × Int)),
      processCaches vid rid num ld sizes caches st ys = .ok (st2, ys2) →
      st.x.Nodup → st2.x.Nodup := by
  intro caches
  induction caches with
  | nil =>
    intro st ys st2 ys2 h hn
    simp only [processCaches] at h
    injection h with h1
    injection h1 with ha hb
    subst ha
    exact hn
  | cons hd rest ih =>
    obtain ⟨cid, lc0⟩ := hd
    intro st ys st2 ys2 h hn
    simp only [processCaches] at h
    by_cases hskip : ld ≤ lc0
    · rw [if_pos hskip] at h
      exact ih _ _ _ _ h hn
    · rw [if_neg hskip] at h
      cases hX : createX vid cid sizes st with
      | error e => rw [hX] at h; cases h
      | ok st1 =>
        rw [hX] at h
        have hn1 := createX_nodup hX hn
        exact ih _ _ _ _ h hn1

lemma processCaches_capInv (vid rid num ld : Int) (sizes : List Int) :
    ∀ (caches : List (Int × Int)) (st : BState) (ys : List (Int × Int))
      (st2 : BState) (ys2 : List (Int × Int)),
      processCaches vid rid num ld sizes caches st ys = .ok (st2, ys2) →
      CapInvariant sizes st → CapInvariant sizes st2 := by
  intro caches
  induction caches with
  | nil =>
    intro st ys st2 ys2 h hinv
    simp only [processCaches] at h
    injection h with h1
    injection h1 with ha hb
    subst ha
    exact hinv
  | cons hd rest ih =>
    obtain ⟨cid, lc0⟩ := hd
    intro st ys st2 ys2 h hinv
    simp only [processCaches] at h
    by_cases hskip : ld ≤ lc0
    · rw [if_pos hskip] at h
      exact ih _ _ _ _ h hinv
    · rw [if_neg hskip] at h
      cases hX : createX vid cid sizes st with
      | error e => rw [hX] at h; cases h
      | ok st1 =>
        rw [hX] at h
        have hinv1 := createX_capInv hX hinv
        exact ih _ _ _ _ h hinv1

lemma specServing_eq {endpoints : List Endpoint} {req : Request}
    {ep : Endpoint} (hE : pyListGet endpoints req.endpoint = .ok ep) :
    specServing endpoints req = (eligCaches ep).map
      (fun p => (req.id, p.1, (ep.ld - p.2) * req.count)) := by
  simp only [specServing, hE]

lemma specAssign_eq {endpoints : List Endpoint} {req : Request}
    {ep : Endpoint} (hE : pyListGet endpoints req.endpoint = .ok ep) :
    specAssign endpoints req =
      if eligCaches ep = [] then none
      else some (req.id, (eligCaches ep).map (fun p => (req.id, p.1))) := by
  simp only [specAssign, hE]

lemma eligPair_iff {endpoints : List Endpoint} {req : Request}
    {ep : Endpoint} {q : Int × Int}
    (hE : pyListGet endpoints req.endpoint = .ok ep) :
    EligPair endpoints req q ↔
      (q.1 = req.video ∧ ∃ lc, (q.2, lc) ∈ ep.caches ∧ lc < ep.ld) := by
  rw [EligPair]
  constructor
  · rintro ⟨hv, ep', hE', lc, hm, hl⟩
    rw [hE] at hE'
    injection hE' with he
    subst he
    exact ⟨hv, lc, hm, hl⟩
  · rintro ⟨hv, lc, hm, hl⟩
    exact ⟨hv, ep, hE, lc, hm, hl⟩

lemma processRequests_fields (endpoints : List Endpoint) (sizes : List Int) :
    ∀ (reqs : List Request) (st st2 : BState),
      processRequests endpoints sizes reqs st = .ok st2 →
      st2.servingVars = st.servingVars ++
        ((reqs.map (specServing endpoints)).flatten) ∧
      st2.assignConstrs = st.assignConstrs ++
        reqs.filterMap (specAssign endpoints) ∧
      st2.capacity.map Prod.fst = st.capacity.map Prod.fst := by
  intro reqs
  induction reqs with
  | nil =>
    intro st st2 h
    simp only [processRequests] at h
    injection h with h1
    subst h1
    simp
  | cons req rest ih =>
    intro st st2 h
    simp only [processRequests] at h
    cases hE : pyListGet endpoints req.endpoint with
    | error e => rw [hE] at h; cases h
    | ok ep =>
      rw [hE] at h
      dsimp only at h
      cases hPC : processCaches req.video req.id req.count ep.ld sizes
          ep.caches st [] with
      | error e => rw [hPC] at h; cases h
      | ok stys =>
        obtain ⟨st1, ys⟩ := stys
        rw [hPC] at h
        dsimp only at h
        obtain ⟨hserv, hys, hassign, hkeys, hlink⟩ :=
          processCaches_fields _ _ _ _ _ _ _ _ _ _ hPC
        rw [List.nil_append] at hys
        have hserv2 : st1.servingVars = st.servingVars ++
            (eligCaches ep).map
              (fun p => (req.id, p.1, (ep.ld - p.2) * req.count)) := hserv
        have hys2 : ys = (eligCaches ep).map (fun p => (req.id, p.1)) := hys
        by_cases hys0 : ys = []
        · rw [if_pos hys0] at h
          obtain ⟨ih1, ih2, ih3⟩ := ih _ _ h
          have hfe : eligCaches ep = [] := by
            rw [hys0] at hys2
            exact (List.map_eq_nil_iff).mp hys2.symm
          have hnone : specAssign endpoints req = none := by
            rw [specAssign_eq hE, if_pos hfe]
          refine ⟨?_, ?_, ?_⟩
          · rw [ih1, hserv2, List.map_cons, List.flatten_cons,
              specServing_eq hE, List.append_assoc]
          · rw [ih2, hassign]
            simp only [List.filterMap_cons, hnone]
          · rw [ih3, hkeys]
        · rw [if_neg hys0] at h
          obtain ⟨ih1, ih2, ih3⟩ := ih _ _ h
          dsimp only at ih1 ih2 ih3
          have hfe : ¬ eligCaches ep = [] := by
            intro hfe0
            apply hys0
            rw [hys2, hfe0]
            rfl
          have hsome : specAssign endpoints req = some (req.id, ys) := by
            rw [specAssign_eq hE, if_neg hfe, ← hys2]
          refine ⟨?_, ?_, ?_⟩
          · rw [ih1, hserv2, List.map_cons, List.flatten_cons,
              specServing_eq hE, List.append_assoc]
          · rw [ih2, hassign]
            simp only [List.filterMap_cons, hsome]
            rw [List.append_assoc]
            rfl
          · rw [ih3, hkeys]

lemma processRequests_mem_x (endpoints : List Endpoint) (sizes : List Int) :
    ∀ (reqs : List Request) (st st2 : BState),
      processRequests endpoints sizes reqs st = .ok st2 →
      ∀ q, q ∈ st2.x ↔ q ∈ st.x ∨
        ∃ req ∈ reqs, EligPair endpoints req q := by
  intro reqs
  induction reqs with
  | nil =>
    intro st st2 h q
    simp only [processRequests] at h
    injection h with h1
    subst h1
    simp
  | cons req rest ih =>
    intro st st2 h q
    simp only [processRequests] at h
    cases hE : pyListGet endpoints req.endpoint with
    | error e => rw [hE] at h; cases h
    | ok ep =>
      rw [hE] at h
      dsimp only at h
      cases hPC : processCaches req.video req.id req.count ep.ld sizes
          ep.caches st [] with
      | error e => rw [hPC] at h; cases h
      | ok stys =>
        obtain ⟨st1, ys⟩ := stys
        rw [hPC] at h
        dsimp only at h
        have hpc := processCaches_mem_x _ _ _ _ _ _ _ _ _ _ hPC
        have hqe : EligPair endpoints req q ↔
            (q.1 = req.video ∧ ∃ lc, (q.2, lc) ∈ ep.caches ∧ lc < ep.ld) :=
          eligPair_iff hE
        by_cases hys0 : ys = []
        · rw [if_pos hys0] at h
          refine Iff.trans (ih _ _ h q) ?_
          constructor
          · rintro (hq1 | ⟨r, hr, he⟩)
            · rcases (hpc q).mp hq1 with hq | he0
              · exact Or.inl hq
              · exact Or.inr ⟨req, List.mem_cons_self _ _, hqe.mpr he0⟩
            · exact Or.inr ⟨r, List.mem_cons_of_mem _ hr, he⟩
          · rintro (hq | ⟨r, hr, he⟩)
            · exact Or.inl ((hpc q).mpr (Or.inl hq))
            · rcases List.mem_cons.mp hr with rfl | hr2
              · exact Or.inl ((hpc q).mpr (Or.inr (hqe.mp he)))
              · exact Or.inr ⟨r, hr2, he⟩
        · rw [if_neg hys0] at h
          refine Iff.trans (ih _ _ h q) ?_
          constructor
          · rintro (hq1 | ⟨r, hr, he⟩)
            · rcases (hpc q).mp hq1 with hq | he0
              · exact Or.inl hq
              · exact Or.inr ⟨req, List.mem_cons_self _ _, hqe.mpr he0⟩
            · exact Or.inr ⟨r, List.mem_cons_of_mem _ hr, he⟩
          · rintro (hq | ⟨r, hr, he⟩)
            · exact Or.inl ((hpc q).mpr (Or.inl hq))
            · rcases List.mem_cons.mp hr with rfl | hr2
              · exact Or.inl ((hpc q).mpr (Or.inr (hqe.mp he)))
              · exact Or.inr ⟨r, hr2, he⟩

lemma processRequests_nodup (endpoints : List Endpoint) (sizes : List Int) :
    ∀ (reqs : List Request) (st st2 : BState),
      processRequests endpoints sizes reqs st = .ok st2 →
      st.x.Nodup → st2.x.Nodup := by
  intro reqs
  induction reqs with
  | nil =>
    intro st st2 h hn
    simp only [processRequests] at h
    injection h with h1
    subst h1
    exact hn
  | cons req rest ih =>
    intro st st2 h hn
    simp only [processRequests] at h
    cases hE : pyListGet endpoints req.endpoint with
    | error e => rw [hE] at h; cases h
    | ok ep =>
      rw [hE] at h
      dsimp only at h
      cases hPC : processCaches req.video req.id req.count ep.ld sizes
          ep.caches st [] with
      | error e => rw [hPC] at h; cases h
      | ok stys =>
        obtain ⟨st1, ys⟩ := stys
        rw [hPC] at h
        dsimp only at h
        have hn1 := processCaches_nodup _ _ _ _ _ _ _ _ _ _ hPC hn
        by_cases hys0 : ys = []
        · rw [if_pos hys0] at h
          exact ih _ _ h hn1
        · rw [if_neg hys0] at h
          exact ih _ _ h hn1

lemma processRequests_capInv (endpoints : List Endpoint) (sizes : List Int) :
    ∀ (reqs : List Request) (st st2 : BState),
      processRequests endpoints sizes reqs st = .ok st2 →
      CapInvariant sizes st → CapInvariant sizes st2 := by
  intro reqs
  induction reqs with
  | nil =>
    intro st st2 h hinv
    simp only [processRequests] at h
    injection h with h1
    subst h1
    exact hinv
  | cons req rest ih =>
    intro st st2 h hinv
    simp only [processRequests] at h
    cases hE : pyListGet endpoints req.endpoint with
    | error e => rw [hE] at h; cases h
    | ok ep =>
      rw [hE] at h
      dsimp only at h
      cases hPC : processCaches req.video req.id req.count ep.ld sizes
          ep.caches st [] with
      | error e => rw [hPC] at h; cases h
      | ok stys =>
        obtain ⟨st1, ys⟩ := stys
        rw [hPC] at h
        dsimp only at h
        have hinv1 := processCaches_capInv _ _ _ _ _ _ _ _ _ _ hPC hinv
        by_cases hys0 : ys = []
        · rw [if_pos hys0] at h
          exact ih _ _ h hinv1
        · rw [if_neg hys0] at h
          exact ih _ _ h hinv1

lemma processRequests_append (endpoints : List Endpoint) (sizes : List Int) :
    ∀ (l1 l2 : List Request) (st : BState),
      processRequests endpoints sizes (l1 ++ l2) st =
        match processRequests endpoints sizes l1 st with
        | .ok st1 => processRequests endpoints sizes l2 st1
        | .error e => .error e := by
  intro l1
  induction l1 with
  | nil => intro l2 st; rfl
  | cons req rest ih =>
    intro l2 st
    simp only [List.cons_append, processRequests]
    cases hE : pyListGet endpoints req.endpoint with
    | error e => rfl
    | ok ep =>
      dsimp only
      cases hPC : processCaches req.video req.id req.count ep.ld sizes
          ep.caches st [] with
      | error e => rfl
      | ok stys =>
        obtain ⟨st1, ys⟩ := stys
        dsimp only
        by_cases hys0 : ys = []
        · rw [if_pos hys0]
          exact ih _ _
        · rw [if_neg hys0]
          exact ih _ _

lemma build_model_ok {inst : Instance} {m : Model}
    (h : build_model inst = .ok m) :
    ∃ st : BState, processRequests inst.endpoints inst.video_sizes
        inst.requests ⟨[], initCapacity inst.C, [], [], []⟩ = .ok st ∧
      m = { st with
        capConstrs := st.capacity.filterMap
          (fun p => if p.2 = [] then none else some (p.1, p.2, inst.X)),
        senseMaximize := true } := by
  unfold build_model at h
  cases hP : processRequests inst.endpoints inst.video_sizes inst.requests
      ⟨[], initCapacity inst.C, [], [], []⟩ with
  | error e => rw [hP] at h; cases h
  | ok st =>
    rw [hP] at h
    injection h with h1
    exact ⟨st, rfl, h1.symm⟩

lemma initCapacity_keys (C : Int) :
    (initCapacity C).map Prod.fst =
      (List.range C.toNat).map (fun k : Nat => (k : Int)) := by
  rw [initCapacity, List.map_map]
  rfl

lemma initial_capInv (sizes : List Int) (C : Int) :
    CapInvariant sizes ⟨[], initCapacity C, [], [], []⟩ := by
  refine ⟨?_, ?_, ?_⟩
  · show ((initCapacity C).map Prod.fst).Nodup
    rw [initCapacity_keys]
    exact (List.nodup_range _).map (fun a b hab => by exact_mod_cast hab)
  · intro q hq
    cases hq
  · intro p hp
    show p.2 = capFormula sizes [] p.1
    rw [initCapacity] at hp
    obtain ⟨k, hk, heq⟩ := List.mem_map.mp hp
    rw [← heq]
    rfl

lemma mem_specServing {endpoints : List Endpoint} {req : Request}
    {rid cid coef : Int} :
    (rid, cid, coef) ∈ specServing endpoints req ↔
      req.id = rid ∧ ∃ ep, pyListGet endpoints req.endpoint = .ok ep ∧
        ∃ lc, (cid, lc) ∈ ep.caches ∧ lc < ep.ld ∧
          coef = (ep.ld - lc) * req.count := by
  unfold specServing
  cases hE : pyListGet endpoints req.endpoint with
  | error e =>
    simp only [List.not_mem_nil, false_iff, not_and]
    rintro h1 ⟨ep, hE', hrest⟩
    cases hE'
  | ok ep =>
    simp only [List.mem_map]
    constructor
    · rintro ⟨p, hp, heq⟩
      injection heq with h1 h2
      injection h2 with h2a h2b
      rw [eligCaches, List.mem_filter] at hp
      refine ⟨h1, ep, rfl, p.2, ?_, ?_, h2b.symm⟩
      · rw [← h2a, Prod.mk.eta]
        exact hp.1
      · simpa using hp.2
    · rintro ⟨hid, ep', hE', lc, hm, hlt, hcoef⟩
      injection hE' with he
      subst he
      refine ⟨(cid, lc), ?_, ?_⟩
      · rw [eligCaches, List.mem_filter]
        exact ⟨hm, by simpa using hlt⟩
      · rw [hid, hcoef]

lemma mem_specAssign {endpoints : List Endpoint} {req : Request}
    {rid : Int} {ys : List (Int × Int)} :
    specAssign endpoints req = some (rid, ys) ↔
      req.id = rid ∧ ∃ ep, pyListGet endpoints req.endpoint = .ok ep ∧
        ¬ eligCaches ep = [] ∧
        ys = (eligCaches ep).map (fun p => (req.id, p.1)) := by
  unfold specAssign
  cases hE : pyListGet endpoints req.endpoint with
  | error e =>
    constructor
    · rintro h; cases h
    · rintro ⟨h1, ep, hE', hrest⟩
      cases hE'
  | ok ep =>
    dsimp only
    by_cases hfe : eligCaches ep = []
    · rw [if_pos hfe]
      constructor
      · rintro h; cases h
      · rintro ⟨h1, ep', hE', hne, hys⟩
        injection hE' with he
        subst he
        exact absurd hfe hne
    · rw [if_neg hfe]
      constructor
      · rintro h
        injection h with h1
        injection h1 with ha hb
        exact ⟨ha, ep, rfl, hfe, hb.symm⟩
      · rintro ⟨h1, ep', hE', hne, hys⟩
        injection hE' with he
        subst he
        rw [hys, h1]

lemma filterMap_sizes_keys (sizes : List Int) :
    ∀ l : List (Int × Int),
      (∀ q ∈ l, ∃ s, pyListGet sizes q.1 = .ok s) →
      ((l.filterMap (fun q => (pyListGet sizes q.1).toOption.map
        (fun s => (q, s)))).map Prod.fst) = l := by
  intro l
  induction l with
  | nil => intro _; rfl
  | cons q rest ih =>
    intro hok
    obtain ⟨s, hs⟩ := hok q (List.mem_cons_self _ _)
    rw [List.filterMap_cons, hs]
    show ((q, s) :: rest.filterMap (fun q => (pyListGet sizes q.1).toOption.map
      (fun s => (q, s)))).map Prod.fst = q :: rest
    rw [List.map_cons,
      ih (fun q2 hq2 => hok q2 (List.mem_cons_of_mem _ hq2))]

lemma capFormula_keys (sizes : List Int) (x : List (Int × Int)) (c : Int)
    (hok : ∀ q ∈ x, ∃ s, pyListGet sizes q.1 = .ok s) :
    (capFormula sizes x c).map Prod.fst = x.filter (fun q => q.2 == c) := by
  rw [capFormula]
  exact filterMap_sizes_keys sizes _
    (fun q hq => hok q (List.mem_of_mem_filter hq))

lemma mem_capFormula_lookup {sizes : List Int} {x : List (Int × Int)}
    {c : Int} {t : CapTerm} (ht : t ∈ capFormula sizes x c) :
    pyListGet sizes t.1.1 = .ok t.2 := by
  rw [capFormula] at ht
  obtain ⟨q, hq, hg⟩ := List.mem_filterMap.mp ht
  cases hl : pyListGet sizes q.1 with
  | error e =>
    rw [hl] at hg
    cases hg
  | ok s =>
    rw [hl] at hg
    simp only [Except.toOption, Option.map_some] at hg
    injection hg with he
    rw [← he]
    exact hl

/-- Shared example instance for the model-building witnesses: one video
of size 5, one endpoint (origin latency 100, cache 0 at latency 10), one
request of weight 3, cache capacity 10. -/
def exampleInstance : Instance :=
  ⟨1, 1, 1, 1, 10, [5], [⟨100, [(0, 10)]⟩], [⟨0, 0, 0, 3⟩]⟩

/-- The model `build_model` produces on `exampleInstance`. -/
def exampleModel : Model :=
  ⟨⟨[(0, 0)], [(0, [((0, 0), 5)])], [(0, 0, 270)], [((0, 0), (0, 0))],
    [(0, [(0, 0)])]⟩, [(0, [((0, 0), 5)], 10)], true⟩

lemma build_exampleModel : build_model exampleInstance = .ok exampleModel :=
  rfl

/-- C4: for every request and every cache reachable from its endpoint, a
serving variable exists if and only if the cache latency is strictly
below the origin latency, and its objective coefficient is then
`(ld - lc) * n`; the model sense is maximize; and no placement variable
is materialized except through an eligible (request, cache) pair. -/
theorem serving_variable_creation (inst : Instance) (m : Model)
    (h : build_model inst = .ok m) :
    m.senseMaximize = true ∧
    (∀ rid cid coef, (rid, cid, coef) ∈ m.servingVars ↔
      ∃ req ∈ inst.requests, req.id = rid ∧
        ∃ ep, pyListGet inst.endpoints req.endpoint = .ok ep ∧
          ∃ lc, (cid, lc) ∈ ep.caches ∧ lc < ep.ld ∧
            coef = (ep.ld - lc) * req.count) ∧
    (∀ q ∈ m.x, ∃ req ∈ inst.requests, EligPair inst.endpoints req q) := by
  obtain ⟨st, hP, hm⟩ := build_model_ok h
  have hmx : m.x = st.x := by rw [hm]
  have hmserv : m.servingVars = st.servingVars := by rw [hm]
  have hmsense : m.senseMaximize = true := by rw [hm]
  obtain ⟨hserv, hassign, hkeys⟩ := processRequests_fields _ _ _ _ _ hP
  have hs2 : st.servingVars =
      (inst.requests.map (specServing inst.endpoints)).flatten := by
    rw [hserv]
    rfl
  refine ⟨hmsense, ?_, ?_⟩
  · intro rid cid coef
    rw [hmserv, hs2]
    constructor
    · intro hmem
      obtain ⟨l, hl, hml⟩ := List.mem_flatten.mp hmem
      obtain ⟨req, hreq, rfl⟩ := List.mem_map.mp hl
      obtain ⟨hid, ep, hE, lc, hm2, hlt, hcoef⟩ := mem_specServing.mp hml
      exact ⟨req, hreq, hid, ep, hE, lc, hm2, hlt, hcoef⟩
    · rintro ⟨req, hreq, hid, ep, hE, lc, hm2, hlt, hcoef⟩
      refine List.mem_flatten.mpr ⟨specServing inst.endpoints req,
        List.mem_map.mpr ⟨req, hreq, rfl⟩, ?_⟩
      exact mem_specServing.mpr ⟨hid, ep, hE, lc, hm2, hlt, hcoef⟩
  · intro q hq
    rw [hmx] at hq
    rcases (processRequests_mem_x _ _ _ _ _ hP q).mp hq with h0 | hex
    · exact absurd h0 (List.not_mem_nil q)
    · exact hex

/-- Witness for C4 on the example instance: the sense is maximize and
the serving variable `(0, 0, 270)` exists for the eligible pair. -/
theorem serving_variable_creation_witness :
    exampleModel.senseMaximize = true ∧
    (0, 0, 270) ∈ exampleModel.servingVars :=
  have hth := serving_variable_creation exampleInstance exampleModel
    build_exampleModel
  ⟨hth.1, (hth.2.1 0 0 270).mpr ⟨⟨0, 0, 0, 3⟩, List.mem_singleton.mpr rfl,
    rfl, ⟨100, [(0, 10)]⟩, rfl, 10, List.mem_singleton.mpr rfl, by decide,
    by decide⟩⟩

/-- C5: placement-variable keys are duplicate-free, one exists exactly
for the pairs some request makes eligible, each is created lazily — after
the first `k` requests the keys present are exactly those eligible within
those `k` requests — and each contributes exactly one term (with
coefficient `video_sizes[v]`) to its cache's capacity accumulator. -/
theorem placement_variable_sharing (inst : Instance) (m : Model)
    (h : build_model inst = .ok m) :
    m.x.Nodup ∧
    (∀ q, q ∈ m.x ↔ ∃ req ∈ inst.requests, EligPair inst.endpoints req q) ∧
    (∀ k : Nat, ∃ stk : BState,
      processRequests inst.endpoints inst.video_sizes (inst.requests.take k)
        ⟨[], initCapacity inst.C, [], [], []⟩ = .ok stk ∧
      ∀ q, q ∈ stk.x ↔
        ∃ req ∈ inst.requests.take k, EligPair inst.endpoints req q) ∧
    (∀ p ∈ m.capacity, p.2.map Prod.fst =
        m.x.filter (fun q => q.2 == p.1) ∧
      ∀ t ∈ p.2, pyListGet inst.video_sizes t.1.1 = .ok t.2) := by
  obtain ⟨st, hP, hm⟩ := build_model_ok h
  have hmx : m.x = st.x := by rw [hm]
  have hmcap : m.capacity = st.capacity := by rw [hm]
  have hnd : st.x.Nodup := processRequests_nodup _ _ _ _ _ hP List.nodup_nil
  have hinv : CapInvariant inst.video_sizes st :=
    processRequests_capInv _ _ _ _ _ hP (initial_capInv _ _)
  refine ⟨by rw [hmx]; exact hnd, ?_, ?_, ?_⟩
  · intro q
    rw [hmx]
    refine Iff.trans (processRequests_mem_x _ _ _ _ _ hP q) ?_
    constructor
    · rintro (h0 | hex)
      · exact absurd h0 (List.not_mem_nil q)
      · exact hex
    · exact fun hex => Or.inr hex
  · intro k
    have hsplit := processRequests_append inst.endpoints inst.video_sizes
      (inst.requests.take k) (inst.requests.drop k)
      ⟨[], initCapacity inst.C, [], [], []⟩
    rw [List.take_append_drop] at hsplit
    rw [hP] at hsplit
    cases hTk : processRequests inst.endpoints inst.video_sizes
        (inst.requests.take k) ⟨[], initCapacity inst.C, [], [], []⟩ with
    | error e =>
      rw [hTk] at hsplit
      cases hsplit
    | ok stk =>
      refine ⟨stk, rfl, ?_⟩
      intro q
      refine Iff.trans (processRequests_mem_x _ _ _ _ _ hTk q) ?_
      constructor
      · rintro (h0 | hex)
        · exact absurd h0 (List.not_mem_nil q)
        · exact hex
      · exact fun hex => Or.inr hex
  · intro p hp
    rw [hmcap] at hp
    have hform := hinv.2.2 p hp
    refine ⟨?_, ?_⟩
    · rw [hmx, hform]
      exact capFormula_keys _ _ _ hinv.2.1
    · intro t ht
      rw [hform] at ht
      exact mem_capFormula_lookup ht

/-- Witness for C5 on the example instance: keys are duplicate-free and
the pair `(0, 0)` is present. -/
theorem placement_variable_sharing_witness :
    exampleModel.x.Nodup ∧ (0, 0) ∈ exampleModel.x :=
  have hth := placement_variable_sharing exampleInstance exampleModel
    build_exampleModel
  ⟨hth.1, (hth.2.1 (0, 0)).mpr ⟨⟨0, 0, 0, 3⟩, List.mem_singleton.mpr rfl,
    rfl, ⟨100, [(0, 10)]⟩, rfl, 10, List.mem_singleton.mpr rfl, by decide⟩⟩

/-- C6: the capacity accumulators range over exactly the caches
`0 .. C-1`; a capacity constraint `(c, terms, X)` is added exactly for
the caches whose accumulator is non-empty, with the accumulator itself
as its terms and bound X; and an accumulator is non-empty exactly when
some placement variable lives on that cache. -/
theorem capacity_constraint_per_nonempty_cache (inst : Instance) (m : Model)
    (h : build_model inst = .ok m) :
    m.capacity.map Prod.fst =
      (List.range inst.C.toNat).map (fun k : Nat => (k : Int)) ∧
    (∀ c entry bound, (c, entry, bound) ∈ m.capConstrs ↔
      ((c, entry) ∈ m.capacity ∧ ¬ entry = [] ∧ bound = inst.X)) ∧
    (∀ p ∈ m.capacity, (¬ p.2 = [] ↔ ∃ v, (v, p.1) ∈ m.x)) := by
  obtain ⟨st, hP, hm⟩ := build_model_ok h
  have hmx : m.x = st.x := by rw [hm]
  have hmcap : m.capacity = st.capacity := by rw [hm]
  have hmcc : m.capConstrs = st.capacity.filterMap
      (fun p => if p.2 = [] then none else some (p.1, p.2, inst.X)) := by
    rw [hm]
  obtain ⟨hserv, hassign, hkeys⟩ := processRequests_fields _ _ _ _ _ hP
  have hinv : CapInvariant inst.video_sizes st :=
    processRequests_capInv _ _ _ _ _ hP (initial_capInv _ _)
  refine ⟨?_, ?_, ?_⟩
  · rw [hmcap, hkeys]
    exact initCapacity_keys _
  · intro c entry bound
    rw [hmcc, hmcap]
    constructor
    · intro hmem
      obtain ⟨p, hp, hsome⟩ := List.mem_filterMap.mp hmem
      by_cases hpe : p.2 = []
      · rw [if_pos hpe] at hsome
        cases hsome
      · rw [if_neg hpe] at hsome
        injection hsome with h1
        injection h1 with e1 e23
        injection e23 with e2 e3
        refine ⟨?_, ?_, e3.symm⟩
        · rw [← e1, ← e2, Prod.mk.eta]
          exact hp
        · rw [← e2]
          exact hpe
    · rintro ⟨hmem, hne, rfl⟩
      exact List.mem_filterMap.mpr ⟨(c, entry), hmem, by rw [if_neg hne]⟩
  · intro p hp
    rw [hmcap] at hp
    have hform := hinv.2.2 p hp
    have hkeys2 : p.2.map Prod.fst = st.x.filter (fun q => q.2 == p.1) := by
      rw [hform]
      exact capFormula_keys _ _ _ hinv.2.1
    rw [hmx]
    constructor
    · intro hne
      have hne2 : ¬ p.2.map Prod.fst = [] := by
        intro h0
        exact hne (List.map_eq_nil_iff.mp h0)
      rw [hkeys2] at hne2
      rw [List.filter_eq_nil_iff] at hne2
      push_neg at hne2
      obtain ⟨q, hq, hq2⟩ := hne2
      have hq3 : q.2 = p.1 := by simpa using hq2
      exact ⟨q.1, by rw [← hq3, Prod.mk.eta]; exact hq⟩
    · rintro ⟨v, hv⟩
      intro hpe
      have h0 : st.x.filter (fun q => q.2 == p.1) = [] := by
        rw [← hkeys2, hpe]
        rfl
      rw [List.filter_eq_nil_iff] at h0
      exact h0 (v, p.1) hv (by simp)

/-- Witness for C6 on the example instance: cache 0's constraint with
its single size-5 term and bound 10 is present. -/
theorem capacity_constraint_per_nonempty_cache_witness :
    (0, [((0, 0), 5)], 10) ∈ exampleModel.capConstrs :=
  have hth := capacity_constraint_per_nonempty_cache exampleInstance
    exampleModel build_exampleModel
  (hth.2.1 0 [((0, 0), 5)] 10).mpr
    ⟨List.mem_singleton.mpr rfl, by decide, rfl⟩

/-- C7: the assignment constraints are exactly one per request with at
least one eligible cache, summing precisely that request's serving
variables (bounded by 1); a request with no eligible cache contributes
none; every constraint's variables are existing serving variables and
every serving variable is covered by its request's constraint. -/
theorem assignment_constraint_iff_eligible (inst : Instance) (m : Model)
    (h : build_model inst = .ok m) :
    m.assignConstrs = inst.requests.filterMap (specAssign inst.endpoints) ∧
    (∀ rid ys, (rid, ys) ∈ m.assignConstrs ↔
      ∃ req ∈ inst.requests, req.id = rid ∧
        ∃ ep, pyListGet inst.endpoints req.endpoint = .ok ep ∧
          ¬ eligCaches ep = [] ∧
          ys = (eligCaches ep).map (fun p => (req.id, p.1))) ∧
    (∀ rid ys, (rid, ys) ∈ m.assignConstrs →
      ¬ ys = [] ∧ ∀ yk ∈ ys, ∃ coef, (yk.1, yk.2, coef) ∈ m.servingVars) ∧
    (∀ rid cid coef, (rid, cid, coef) ∈ m.servingVars →
      ∃ ys, (rid, ys) ∈ m.assignConstrs ∧ (rid, cid) ∈ ys) := by
  obtain ⟨st, hP, hm⟩ := build_model_ok h
  have hma : m.assignConstrs = st.assignConstrs := by rw [hm]
  have hmserv : m.servingVars = st.servingVars := by rw [hm]
  obtain ⟨hserv, hassign, hkeys⟩ := processRequests_fields _ _ _ _ _ hP
  have ha2 : st.assignConstrs =
      inst.requests.filterMap (specAssign inst.endpoints) := by
    rw [hassign]
    rfl
  have hs2 : st.servingVars =
      (inst.requests.map (specServing inst.endpoints)).flatten := by
    rw [hserv]
    rfl
  have hmem : ∀ rid ys, (rid, ys) ∈ m.assignConstrs ↔
      ∃ req ∈ inst.requests, req.id = rid ∧
        ∃ ep, pyListGet inst.endpoints req.endpoint = .ok ep ∧
          ¬ eligCaches ep = [] ∧
          ys = (eligCaches ep).map (fun p => (req.id, p.1)) := by
    intro rid ys
    rw [hma, ha2]
    constructor
    · intro hmem
      obtain ⟨req, hreq, hsome⟩ := List.mem_filterMap.mp hmem
      obtain ⟨hid, ep, hE, hne, hys⟩ := mem_specAssign.mp hsome
      exact ⟨req, hreq, hid, ep, hE, hne, hys⟩
    · rintro ⟨req, hreq, hid, ep, hE, hne, hys⟩
      exact List.mem_filterMap.mpr
        ⟨req, hreq, mem_specAssign.mpr ⟨hid, ep, hE, hne, hys⟩⟩
  refine ⟨by rw [hma, ha2], hmem, ?_, ?_⟩
  · intro rid ys hmem2
    obtain ⟨req, hreq, hid, ep, hE, hne, hys⟩ := (hmem rid ys).mp hmem2
    constructor
    · rw [hys]
      intro h0
      exact hne (List.map_eq_nil_iff.mp h0)
    · intro yk hyk
      rw [hys] at hyk
      obtain ⟨p, hp, rfl⟩ := List.mem_map.mp hyk
      refine ⟨(ep.ld - p.2) * req.count, ?_⟩
      rw [hmserv, hs2]
      refine List.mem_flatten.mpr ⟨specServing inst.endpoints req,
        List.mem_map.mpr ⟨req, hreq, rfl⟩, ?_⟩
      apply mem_specServing.mpr
      rw [eligCaches, List.mem_filter] at hp
      exact ⟨rfl, ep, hE, p.2,
        by rw [Prod.mk.eta]; exact hp.1, by simpa using hp.2, rfl⟩
  · intro rid cid coef hmemS
    rw [hmserv, hs2] at hmemS
    obtain ⟨l, hl, hml⟩ := List.mem_flatten.mp hmemS
    obtain ⟨req, hreq, rfl⟩ := List.mem_map.mp hl
    obtain ⟨hid, ep, hE, lc, hmc, hlt, hcoef⟩ := mem_specServing.mp hml
    have helig : (cid, lc) ∈ eligCaches ep := by
      rw [eligCaches, List.mem_filter]
      exact ⟨hmc, by simpa using hlt⟩
    have hne : ¬ eligCaches ep = [] := by
      intro h0
      rw [h0] at helig
      cases helig
    refine ⟨(eligCaches ep).map (fun p => (req.id, p.1)), ?_, ?_⟩
    · exact (hmem rid _).mpr ⟨req, hreq, hid, ep, hE, hne, rfl⟩
    · refine List.mem_map.mpr ⟨(cid, lc), helig, ?_⟩
      rw [hid]

/-- Witness for C7 on the example instance: the assignment constraint of
request 0 over its single serving variable is present. -/
theorem assignment_constraint_iff_eligible_witness :
    (0, [(0, 0)]) ∈ exampleModel.assignConstrs :=
  have hth := assignment_constraint_iff_eligible exampleInstance
    exampleModel build_exampleModel
  (hth.2.1 0 [(0, 0)]).mpr ⟨⟨0, 0, 0, 3⟩, List.mem_singleton.mpr rfl, rfl,
    ⟨100, [(0, 10)]⟩, rfl, by decide, rfl⟩

/-- Spec-side (§4.1): skeleton well-formedness of `k` cache-connection
lines — exactly two fields each — returning the remaining input. -/
def wfCacheLines : Nat → List (List Int) → Option (List (List Int))
  | 0, input => some input
  | k + 1, input =>
    let (line, rest) := readline input
    if line.length = 2 then wfCacheLines k rest else none

/-- Spec-side: skeleton well-formedness of `e` endpoint blocks — a
two-field header `ld k` followed by `k` well-formed cache lines. -/
def wfBlocks : Nat → List (List Int) → Option (List (List Int))
  | 0, input => some input
  | e + 1, input =>
    let (hdr, rest) := readline input
    match hdr with
    | [_, k] =>
      match wfCacheLines k.toNat rest with
      | some rest2 => wfBlocks e rest2
      | none => none
    | _ => none

/-- Spec-side: skeleton well-formedness of `r` request lines — exactly
three fields each. -/
def wfRequestLines : Nat → List (List Int) → Option (List (List Int))
  | 0, input => some input
  | r + 1, input =>
    let (line, rest) := readline input
    if line.length = 3 then wfRequestLines r rest else none

/-- Spec-side (§4.1/§8): the input is well formed — a header of exactly
five integers, a size line of exactly `V` integers, `E` well-formed
endpoint blocks and `R` well-formed request lines (trailing input is not
constrained, matching the parser). -/
def wellFormed (input : List (List Int)) : Bool :=
  let (header, rest) := readline input
  match header with
  | [v, e, r, _, _] =>
    let (sizes_line, rest1) := readline rest
    ((sizes_line.length : Int) = v : Bool) &&
      (match wfBlocks e.toNat rest1 with
       | some rest2 => (wfRequestLines r.toNat rest2).isSome
       | none => false)
  | _ => false

lemma parseCaches_wf : ∀ (k : Nat) (acc : List (Int × Int))
    (input : List (List Int)),
    (∀ conns rest, parseCaches k acc input = .ok (conns, rest) →
      wfCacheLines k input = some rest) ∧
    (∀ e, parseCaches k acc input = .error e →
      wfCacheLines k input = none) := by
  intro k
  induction k with
  | zero =>
    intro acc input
    refine ⟨?_, ?_⟩
    · intro conns rest h
      injection h with h1
      injection h1 with ha hb
      subst hb
      rfl
    · intro e h
      cases h
  | succ k ih =>
    intro acc input
    cases input with
    | nil =>
      exact ⟨fun conns rest h => Except.noConfusion h, fun e h => rfl⟩
    | cons line rest0 =>
      match line with
      | [] =>
        exact ⟨fun conns rest h => Except.noConfusion h, fun e h => rfl⟩
      | [a] =>
        exact ⟨fun conns rest h => Except.noConfusion h, fun e h => rfl⟩
      | [a, b] =>
        exact ⟨fun conns rest h => (ih _ rest0).1 conns rest h,
          fun e h => (ih _ rest0).2 e h⟩
      | a :: b :: c :: l3 =>
        exact ⟨fun conns rest h => Except.noConfusion h, fun e h => rfl⟩

lemma parseEndpoints_cons (ld k : Int) (rest0 : List (List Int)) (e : Nat) :
    parseEndpoints (e + 1) ([ld, k] :: rest0) =
      (match parseCaches k.toNat [] rest0 with
       | .error err => .error err
       | .ok (conns, rest2) =>
         match parseEndpoints e rest2 with
         | .error err => .error err
         | .ok (eps, rest3) => .ok (⟨ld, conns⟩ :: eps, rest3)) := rfl

lemma wfBlocks_cons (ld k : Int) (rest0 : List (List Int)) (e : Nat) :
    wfBlocks (e + 1) ([ld, k] :: rest0) =
      (match wfCacheLines k.toNat rest0 with
       | some rest2 => wfBlocks e rest2
       | none => none) := rfl

lemma parseEndpoints_wf : ∀ (e : Nat) (input : List (List Int)),
    (∀ eps rest, parseEndpoints e input = .ok (eps, rest) →
      wfBlocks e input = some rest ∧ eps.length = e) ∧
    (∀ err, parseEndpoints e input = .error err →
      wfBlocks e input = none) := by
  intro e
  induction e with
  | zero =>
    intro input
    refine ⟨?_, ?_⟩
    · intro eps rest h
      injection h with h1
      injection h1 with ha hb
      subst ha
      subst hb
      exact ⟨rfl, rfl⟩
    · intro err h
      cases h
  | succ e ih =>
    intro input
    cases input with
    | nil =>
      exact ⟨fun eps rest h => Except.noConfusion h, fun err h => rfl⟩
    | cons hdr rest0 =>
      match hdr with
      | [] =>
        exact ⟨fun eps rest h => Except.noConfusion h, fun err h => rfl⟩
      | [a] =>
        exact ⟨fun eps rest h => Except.noConfusion h, fun err h => rfl⟩
      | [ld, k] =>
        rw [parseEndpoints_cons, wfBlocks_cons]
        cases hPC : parseCaches k.toNat [] rest0 with
        | error err2 =>
          rw [(parseCaches_wf k.toNat [] rest0).2 err2 hPC]
          exact ⟨fun eps rest h => Except.noConfusion h, fun err h => rfl⟩
        | ok cr =>
          obtain ⟨conns, rest2⟩ := cr
          rw [(parseCaches_wf k.toNat [] rest0).1 conns rest2 hPC]
          dsimp only
          cases hPE : parseEndpoints e rest2 with
          | error err2 =>
            rw [(ih rest2).2 err2 hPE]
            exact ⟨fun eps rest h => Except.noConfusion h, fun err h => rfl⟩
          | ok er =>
            obtain ⟨eps2, rest3⟩ := er
            obtain ⟨hwf, hlen⟩ := (ih rest2).1 eps2 rest3 hPE
            rw [hwf]
            refine ⟨?_, ?_⟩
            · intro eps rest h
              injection h with h1
              injection h1 with ha hb
              subst hb
              refine ⟨rfl, ?_⟩
              rw [← ha]
              simp [hlen]
            · intro err h
              cases h
      | a :: b :: c :: l3 =>
        exact ⟨fun eps rest h => Except.noConfusion h, fun err h => rfl⟩

lemma parseRequests_wf : ∀ (r : Nat) (i : Int) (input : List (List Int)),
    (∀ reqs rest, parseRequests r i input = .ok (reqs, rest) →
      wfRequestLines r input = some rest ∧ reqs.length = r) ∧
    (∀ err, parseRequests r i input = .error err →
      wfRequestLines r input = none) := by
  intro r
  induction r with
  | zero =>
    intro i input
    refine ⟨?_, ?_⟩
    · intro reqs rest h
      injection h with h1
      injection h1 with ha hb
      subst ha
      subst hb
      exact ⟨rfl, rfl⟩
    · intro err h
      cases h
  | succ r ih =>
    intro i input
    cases input with
    | nil =>
      exact ⟨fun reqs rest h => Except.noConfusion h, fun err h => rfl⟩
    | cons line rest0 =>
      match line with
      | [] =>
        exact ⟨fun reqs rest h => Except.noConfusion h, fun err h => rfl⟩
      | [a] =>
        exact ⟨fun reqs rest h => Except.noConfusion h, fun err h => rfl⟩
      | [a, b] =>
        exact ⟨fun reqs rest h => Except.noConfusion h, fun err h => rfl⟩
      | [rv, re, rn] =>
        have hred : parseRequests (r + 1) i ([rv, re, rn] :: rest0) =
            (match parseRequests r (i + 1) rest0 with
             | .error err => .error err
             | .ok (reqs, rest2) => .ok (⟨i, rv, re, rn⟩ :: reqs, rest2)) :=
          rfl
        have hred2 : wfRequestLines (r + 1) ([rv, re, rn] :: rest0) =
            wfRequestLines r rest0 := rfl
        rw [hred, hred2]
        cases hPR : parseRequests r (i + 1) rest0 with
        | error err2 =>
          rw [(ih (i + 1) rest0).2 err2 hPR]
          exact ⟨fun reqs rest h => Except.noConfusion h, fun err h => rfl⟩
        | ok rr =>
          obtain ⟨reqs2, rest2⟩ := rr
          obtain ⟨hwf, hlen⟩ := (ih (i + 1) rest0).1 reqs2 rest2 hPR
          refine ⟨?_, ?_⟩
          · intro reqs rest h
            injection h with h1
            injection h1 with ha hb
            subst hb
            refine ⟨hwf, ?_⟩
            rw [← ha]
            simp [hlen]
          · intro err h
            cases h
      | a :: b :: c :: d :: l4 =>
        exact ⟨fun reqs rest h => Except.noConfusion h, fun err h => rfl⟩

lemma parseCaches_valueError : ∀ (k : Nat) (acc : List (Int × Int))
    (input : List (List Int)) (err : PyErr),
    parseCaches k acc input = .error err → ∃ msg, err = .valueError msg := by
  intro k
  induction k with
  | zero =>
    intro acc input err h
    cases h
  | succ k ih =>
    intro acc input err h
    cases input with
    | nil =>
      exact ⟨"unpack", by injection h with h1; exact h1.symm⟩
    | cons line rest0 =>
      match line with
      | [] => exact ⟨"unpack", by injection h with h1; exact h1.symm⟩
      | [a] => exact ⟨"unpack", by injection h with h1; exact h1.symm⟩
      | [a, b] => exact ih _ rest0 err h
      | a :: b :: c :: l3 =>
        exact ⟨"unpack", by injection h with h1; exact h1.symm⟩

lemma parseEndpoints_valueError : ∀ (e : Nat) (input : List (List Int))
    (err : PyErr),
    parseEndpoints e input = .error err → ∃ msg, err = .valueError msg := by
  intro e
  induction e with
  | zero =>
    intro input err h
    cases h
  | succ e ih =>
    intro input err h
    cases input with
    | nil =>
      exact ⟨"Endpoint header must contain 2 integers",
        by injection h with h1; exact h1.symm⟩
    | cons hdr rest0 =>
      match hdr with
      | [] =>
        exact ⟨"Endpoint header must contain 2 integers",
          by injection h with h1; exact h1.symm⟩
      | [a] =>
        exact ⟨"Endpoint header must contain 2 integers",
          by injection h with h1; exact h1.symm⟩
      | [ld, k] =>
        rw [parseEndpoints_cons] at h
        cases hPC : parseCaches k.toNat [] rest0 with
        | error err2 =>
          rw [hPC] at h
          injection h with h1
          rw [← h1]
          exact parseCaches_valueError k.toNat [] rest0 err2 hPC
        | ok cr =>
          obtain ⟨conns, rest2⟩ := cr
          rw [hPC] at h
          dsimp only at h
          cases hPE : parseEndpoints e rest2 with
          | error err2 =>
            rw [hPE] at h
            injection h with h1
            rw [← h1]
            exact ih rest2 err2 hPE
          | ok er =>
            obtain ⟨eps2, rest3⟩ := er
            rw [hPE] at h
            cases h
      | a :: b :: c :: l3 =>
        exact ⟨"Endpoint header must contain 2 integers",
          by injection h with h1; exact h1.symm⟩

lemma parseRequests_valueError : ∀ (r : Nat) (i : Int)
    (input : List (List Int)) (err : PyErr),
    parseRequests r i input = .error err → ∃ msg, err = .valueError msg := by
  intro r
  induction r with
  | zero =>
    intro i input err h
    cases h
  | succ r ih =>
    intro i input err h
    cases input with
    | nil =>
      exact ⟨"Request line must contain 3 integers",
        by injection h with h1; exact h1.symm⟩
    | cons line rest0 =>
      match line with
      | [] =>
        exact ⟨"Request line must contain 3 integers",
          by injection h with h1; exact h1.symm⟩
      | [a] =>
        exact ⟨"Request line must contain 3 integers",
          by injection h with h1; exact h1.symm⟩
      | [a, b] =>
        exact ⟨"Request line must contain 3 integers",
          by injection h with h1; exact h1.symm⟩
      | [rv, re, rn] =>
        have hred : parseRequests (r + 1) i ([rv, re, rn] :: rest0) =
            (match parseRequests r (i + 1) rest0 with
             | .error err => .error err
             | .ok (reqs, rest2) => .ok (⟨i, rv, re, rn⟩ :: reqs, rest2)) :=
          rfl
        rw [hred] at h
        cases hPR : parseRequests r (i + 1) rest0 with
        | error err2 =>
          rw [hPR] at h
          injection h with h1
          rw [← h1]
          exact ih (i + 1) rest0 err2 hPR
        | ok rr =>
          obtain ⟨reqs2, rest2⟩ := rr
          rw [hPR] at h
          cases h
      | a :: b :: c :: d :: l4 =>
        exact ⟨"Request line must contain 3 integers",
          by injection h with h1; exact h1.symm⟩

lemma parsing_tail (v e r c x : Int) (sizes_line : List Int)
    (rest1 : List (List Int)) :
    ((lire_instance ([v, e, r, c, x] :: sizes_line :: rest1)).isOk =
      wellFormed ([v, e, r, c, x] :: sizes_line :: rest1)) ∧
    (∀ err, lire_instance ([v, e, r, c, x] :: sizes_line :: rest1) =
        .error err → ∃ msg, err = .valueError msg) ∧
    (∀ inst, lire_instance ([v, e, r, c, x] :: sizes_line :: rest1) =
        .ok inst →
      (inst.video_sizes.length : Int) = inst.V ∧
      inst.endpoints.length = inst.E.toNat ∧
      inst.requests.length = inst.R.toNat) := by
  have hl : lire_instance ([v, e, r, c, x] :: sizes_line :: rest1) =
      (if (sizes_line.length : Int) = v then
        match parseEndpoints e.toNat rest1 with
        | .error err => .error err
        | .ok (endpoints, rest2) =>
          match parseRequests r.toNat 0 rest2 with
          | .error err => .error err
          | .ok (requests, _) =>
            .ok ⟨v, e, r, c, x, sizes_line, endpoints, requests⟩
      else .error (.valueError "Second line must contain V video sizes")) :=
    rfl
  have hw : wellFormed ([v, e, r, c, x] :: sizes_line :: rest1) =
      (((sizes_line.length : Int) = v : Bool) &&
        (match wfBlocks e.toNat rest1 with
         | some rest2 => (wfRequestLines r.toNat rest2).isSome
         | none => false)) := rfl
  rw [hl, hw]
  by_cases hv : (sizes_line.length : Int) = v
  · rw [if_pos hv, decide_eq_true hv, Bool.true_and]
    cases hPE : parseEndpoints e.toNat rest1 with
    | error err2 =>
      rw [(parseEndpoints_wf e.toNat rest1).2 err2 hPE]
      refine ⟨rfl, ?_, ?_⟩
      · intro err h
        injection h with h1
        rw [← h1]
        exact parseEndpoints_valueError e.toNat rest1 err2 hPE
      · intro inst h
        cases h
    | ok pr =>
      obtain ⟨endpoints, rest2⟩ := pr
      obtain ⟨hwfB, hlenE⟩ := (parseEndpoints_wf e.toNat rest1).1
        endpoints rest2 hPE
      rw [hwfB]
      dsimp only
      cases hPR : parseRequests r.toNat 0 rest2 with
      | error err2 =>
        rw [(parseRequests_wf r.toNat 0 rest2).2 err2 hPR]
        refine ⟨rfl, ?_, ?_⟩
        · intro err h
          injection h with h1
          rw [← h1]
          exact parseRequests_valueError r.toNat 0 rest2 err2 hPR
        · intro inst h
          cases h
      | ok rr =>
        obtain ⟨requests, rest3⟩ := rr
        obtain ⟨hwfR, hlenR⟩ := (parseRequests_wf r.toNat 0 rest2).1
          requests rest3 hPR
        rw [hwfR]
        refine ⟨rfl, ?_, ?_⟩
        · intro err h
          cases h
        · intro inst h
          injection h with h1
          rw [← h1]
          exact ⟨hv, hlenE, hlenR⟩
  · rw [if_neg hv, decide_eq_false hv, Bool.false_and]
    refine ⟨rfl, ?_, ?_⟩
    · intro err h
      injection h with h1
      exact ⟨"Second line must contain V video sizes", h1.symm⟩
    · intro inst h
      cases h

/-- C3: parsing succeeds exactly on well-formed inputs — a five-integer
header, a size line of exactly V fields, E well-formed endpoint blocks
and R well-formed request lines — returning entity counts equal to the
declared V, E, R (the count equalities for E and R hold as stated for
the non-negative counts the data model requires; unconditionally the
lengths are `E.toNat`/`R.toNat`); every parse failure, on any malformed
line, is a `ValueError` (the code's `MalformedInstance`). -/
theorem parsing_contract (input : List (List Int)) :
    ((lire_instance input).isOk = wellFormed input) ∧
    (∀ err, lire_instance input = .error err → ∃ msg, err = .valueError msg) ∧
    (∀ inst, lire_instance input = .ok inst →
      (inst.video_sizes.length : Int) = inst.V ∧
      inst.endpoints.length = inst.E.toNat ∧
      inst.requests.length = inst.R.toNat ∧
      (0 ≤ inst.E → (inst.endpoints.length : Int) = inst.E) ∧
      (0 ≤ inst.R → (inst.requests.length : Int) = inst.R)) := by
  have main : ((lire_instance input).isOk = wellFormed input) ∧
      (∀ err, lire_instance input = .error err →
        ∃ msg, err = .valueError msg) ∧
      (∀ inst, lire_instance input = .ok inst →
        (inst.video_sizes.length : Int) = inst.V ∧
        inst.endpoints.length = inst.E.toNat ∧
        inst.requests.length = inst.R.toNat) := by
    cases input with
    | nil =>
      refine ⟨rfl, ?_, ?_⟩
      · intro err h
        injection h with h1
        exact ⟨"Empty input file", h1.symm⟩
      · intro inst h
        cases h
    | cons header rest =>
      match header with
      | [] =>
        refine ⟨rfl, ?_, ?_⟩
        · intro err h
          injection h with h1
          exact ⟨"Empty input file", h1.symm⟩
        · intro inst h
          cases h
      | [v] =>
        refine ⟨rfl, ?_, ?_⟩
        · intro err h
          injection h with h1
          exact ⟨"First line must contain 5 integers: V E R C X", h1.symm⟩
        · intro inst h
          cases h
      | [v, e] =>
        refine ⟨rfl, ?_, ?_⟩
        · intro err h
          injection h with h1
          exact ⟨"First line must contain 5 integers: V E R C X", h1.symm⟩
        · intro inst h
          cases h
      | [v, e, r] =>
        refine ⟨rfl, ?_, ?_⟩
        · intro err h
          injection h with h1
          exact ⟨"First line must contain 5 integers: V E R C X", h1.symm⟩
        · intro inst h
          cases h
      | [v, e, r, c] =>
        refine ⟨rfl, ?_, ?_⟩
        · intro err h
          injection h with h1
          exact ⟨"First line must contain 5 integers: V E R C X", h1.symm⟩
        · intro inst h
          cases h
      | [v, e, r, c, x] =>
        cases rest with
        | nil => exact parsing_tail v e r c x [] []
        | cons s r1 => exact parsing_tail v e r c x s r1
      | v :: e :: r :: c :: x :: y :: t =>
        refine ⟨rfl, ?_, ?_⟩
        · intro err h
          injection h with h1
          exact ⟨"First line must contain 5 integers: V E R C X", h1.symm⟩
        · intro inst h
          cases h
  refine ⟨main.1, main.2.1, ?_⟩
  intro inst h
  obtain ⟨h1, h2, h3⟩ := main.2.2 inst h
  refine ⟨h1, h2, h3, ?_, ?_⟩
  · intro hE
    rw [h2]
    omega
  · intro hR
    rw [h3]
    omega

/-- Witness for C3: the example input parses, is well formed, and the
returned counts match the declared header. -/
theorem parsing_contract_witness :
    (lire_instance [[1, 1, 1, 1, 10], [5], [100, 1], [0, 10],
        [0, 0, 3]]).isOk =
      wellFormed [[1, 1, 1, 1, 10], [5], [100, 1], [0, 10], [0, 0, 3]] ∧
    (exampleInstance.video_sizes.length : Int) = exampleInstance.V ∧
    (exampleInstance.endpoints.length : Int) = exampleInstance.E ∧
    (exampleInstance.requests.length : Int) = exampleInstance.R :=
  have hth := parsing_contract
    [[1, 1, 1, 1, 10], [5], [100, 1], [0, 10], [0, 0, 3]]
  have hcounts := hth.2.2 exampleInstance rfl
  ⟨hth.1, hcounts.1, hcounts.2.2.2.1 (by decide),
    hcounts.2.2.2.2 (by decide)⟩

/-- Counterexample for C10: the claim that any out-of-range id that is
actually used during model building makes `build_model` fail with
`KeyError`/`IndexError` is false.  The request below references endpoint
id −1, outside `[0, E)` with `E = 1`; the endpoint lookup happens for
every request, yet `build_model` succeeds, because Python's negative
list indexing silently resolves `endpoints[-1]` to the last endpoint. -/
theorem id_range_check_cex :
    lire_instance [[1, 1, 1, 1, 10], [3], [100, 1], [0, 10], [0, -1, 2]] =
      .ok ⟨1, 1, 1, 1, 10, [3], [⟨100, [(0, 10)]⟩], [⟨0, 0, -1, 2⟩]⟩ ∧
    ¬ (0 ≤ (-1 : Int)) ∧
    (build_model
      ⟨1, 1, 1, 1, 10, [3], [⟨100, [(0, 10)]⟩], [⟨0, 0, -1, 2⟩]⟩).isOk =
      true :=
  ⟨rfl, by decide, rfl⟩

/-- C10 as amended: the parser performs no range validation (out-of-range
cache, video and endpoint ids are accepted); during building, an
endpoint id ≥ E raises `IndexError` at the request's endpoint lookup, a
video id ≥ V raises `IndexError` when its first placement variable is
created, and a cache id outside `[0, C)` (negative included) raises
`KeyError` when an eligible pair first touches its accumulator; but
negative endpoint or video ids of magnitude at most E or V are silently
accepted through Python negative indexing and build succeeds. -/
theorem id_range_behavior :
    (lire_instance [[1, 1, 1, 1, 10], [3], [100, 1], [1, 10],
      [2, 3, 2]]).isOk = true ∧
    build_model ⟨1, 1, 1, 1, 10, [3], [⟨100, [(0, 10)]⟩], [⟨0, 0, 1, 2⟩]⟩ =
      .error .indexError ∧
    build_model ⟨1, 1, 1, 1, 10, [3], [⟨100, [(0, 10)]⟩], [⟨0, 1, 0, 2⟩]⟩ =
      .error .indexError ∧
    build_model ⟨1, 1, 1, 1, 10, [3], [⟨100, [(1, 10)]⟩], [⟨0, 0, 0, 2⟩]⟩ =
      .error .keyError ∧
    build_model ⟨1, 1, 1, 1, 10, [3], [⟨100, [(-1, 10)]⟩], [⟨0, 0, 0, 2⟩]⟩ =
      .error .keyError ∧
    (build_model
      ⟨1, 1, 1, 1, 10, [3], [⟨100, [(0, 10)]⟩], [⟨0, 0, -1, 2⟩]⟩).isOk =
      true ∧
    (build_model
      ⟨1, 1, 1, 1, 10, [3], [⟨100, [(0, 10)]⟩], [⟨0, -1, 0, 2⟩]⟩).isOk =
      true :=
  ⟨rfl, rfl, rfl, rfl, rfl, rfl, rfl⟩
